import Mathlib

/-!
Verification of the query/caching/relationship engine of the `7otion/orm`
repository.  The TypeScript/JavaScript sources are shallowly embedded as
executable Lean definitions: JS objects and `Map`s become association lists
(`aset` mirrors `Map.set` / object assignment, `adelete` mirrors
`Map.delete`), JS runtime values bound to SQL parameters become `QVal`,
asynchronous code becomes explicit state passing, `Date.now()` and
`new Date().toISOString()` become explicit `now` parameters, and the
database adapter becomes an oracle function together with a log of the
statements issued through it.
-/

namespace Orm

/-- A JS runtime value that can be bound to a SQL parameter
(`QueryValue = string | number | boolean | null | undefined` in
`src/src/types.ts`).  Missing object properties read as `undef`. -/
inductive QVal where
  | s (v : String)
  | i (v : Int)
  | b (v : Bool)
  | null
  | undef
deriving DecidableEq, Repr

/-- JS `v != null` (loose inequality, false exactly for `null` and
`undefined`). -/
def QVal.nonNull : QVal → Bool
  | .null => false
  | .undef => false
  | _ => true

/-- A raw database row: key/value pairs (`DatabaseRow` in the source). -/
def Row : Type := List (String × QVal)

instance : DecidableEq Row := by unfold Row; infer_instance

instance : Repr Row := by unfold Row; infer_instance

/-- First-match association-list lookup; mirrors `Map.get` / object
property access on maps with unique keys. -/
def alookup {κ α : Type} [DecidableEq κ] (k : κ) : List (κ × α) → Option α
  | [] => none
  | (k', v) :: rest => if k' = k then some v else alookup k rest

/-- `Map.set` / JS object property assignment: replace the value in place
if the key is present, otherwise append the pair at the end (JS `Map`
preserves the original insertion position on overwrite). -/
def aset {κ α : Type} [DecidableEq κ] (k : κ) (v : α) : List (κ × α) → List (κ × α)
  | [] => [(k, v)]
  | (k', v') :: rest => if k' = k then (k, v) :: rest else (k', v') :: aset k v rest

/-- `Map.delete`: remove the (unique) entry with the given key. -/
def adelete {κ α : Type} [DecidableEq κ] (k : κ) : List (κ × α) → List (κ × α)
  | [] => []
  | (k', v') :: rest => if k' = k then rest else (k', v') :: adelete k rest

/-- JS `Set.add`: append if not already present. -/
def sadd {α : Type} [DecidableEq α] (x : α) (l : List α) : List α :=
  if x ∈ l then l else l ++ [x]

/-- Reading `model[key]` through the attribute proxy: `_attributes[key]`,
`undefined` when absent. -/
def attrGet (attrs : List (String × QVal)) (k : String) : QVal :=
  (alookup k attrs).getD QVal.undef

/-! ## The SQLite dialect (`src/dist/plugins/dialects/sqlite.js`,
source variant in `src/unnamed/part_006` / `part_017`) -/

/-- `WhereOperator` from `src/src/types.ts`. -/
inductive WhereOp where
  | eq | ne | gt | ge | lt | le | like | inOp | notIn | isOp | isNot
deriving DecidableEq, Repr

def WhereOp.str : WhereOp → String
  | .eq => "="
  | .ne => "!="
  | .gt => ">"
  | .ge => ">="
  | .lt => "<"
  | .le => "<="
  | .like => "LIKE"
  | .inOp => "IN"
  | .notIn => "NOT IN"
  | .isOp => "IS"
  | .isNot => "IS NOT"

/-- `WhereValue = QueryValue | QueryValue[]`. -/
inductive WhereVal where
  | one (v : QVal)
  | many (vs : List QVal)
deriving DecidableEq, Repr

/-- `Array.isArray(value) ? value : [value]` (the IN-clause expansion). -/
def WhereVal.asList : WhereVal → List QVal
  | .one v => [v]
  | .many vs => vs

/-- The single bound value pushed for a non-IN basic condition
(`bindings.push(value)`).  An array bound outside IN/NOT IN is outside
the declared `QueryValue` contract of `CompiledQuery.bindings`; it is
modeled as a single opaque `undef` binding (one pushed item, matching the
count of items the JS push produces). -/
def WhereVal.scalar : WhereVal → QVal
  | .one v => v
  | .many _ => QVal.undef

/-- `WhereCondition`: a basic triple or a raw fragment with positional
bindings. -/
inductive WhereCond where
  | basic (column : String) (op : WhereOp) (value : WhereVal)
  | raw (sql : String) (bindings : List QVal)
deriving DecidableEq, Repr

/-- `OrderDirection = 'asc' | 'desc' | 'ASC' | 'DESC' | 'raw'`. -/
inductive Dir where
  | ascLower | descLower | ascUpper | descUpper | raw
deriving DecidableEq, Repr

/-- `order.direction.toUpperCase()` for the non-raw directions. -/
def Dir.upper : Dir → String
  | .ascLower => "ASC"
  | .descLower => "DESC"
  | .ascUpper => "ASC"
  | .descUpper => "DESC"
  | .raw => ""

structure OrderClause where
  column : String
  direction : Dir
deriving DecidableEq, Repr

inductive JoinKind where
  | inner | left | right
deriving DecidableEq, Repr

def JoinKind.str : JoinKind → String
  | .inner => "INNER"
  | .left => "LEFT"
  | .right => "RIGHT"

structure JoinClause where
  kind : JoinKind
  table : String
  first : String
  op : String
  second : String
deriving DecidableEq, Repr

/-- `QueryStructure` from `src/src/types.ts`.  The optional `joins` array
is modeled as a plain list (the compiler treats a missing array and an
empty array identically); an empty `columns` list likewise behaves as the
missing projection. -/
structure QueryStructure where
  table : String
  wheres : List WhereCond
  orders : List OrderClause
  columns : List String := []
  selectRaw : Option String := none
  limitValue : Option Int := none
  offsetValue : Option Int := none
  joins : List JoinClause := []
deriving DecidableEq, Repr

/-- `CompiledQuery`: statement text plus ordered bound values. -/
structure CompiledQuery where
  sql : String
  bindings : List QVal
deriving DecidableEq, Repr

/-- `Array.prototype.join(sep)`. -/
def joinSep (sep : String) : List String → String
  | [] => ""
  | [x] => x
  | x :: xs => x ++ sep ++ joinSep sep xs

/-- `String.prototype.split(sep)` for a single-character separator:
every occurrence splits, empty parts preserved. -/
def splitOnChar (sep : Char) : List Char → List (List Char)
  | [] => [[]]
  | c :: rest =>
    if c = sep then [] :: splitOnChar sep rest
    else
      match splitOnChar sep rest with
      | [] => [[c]]
      | p :: ps => (c :: p) :: ps

/-- Double internal quotes and wrap in double quotes (the non-dotted case
of `escapeIdentifier`). -/
def escQuote (s : String) : String :=
  "\"" ++ String.mk (s.data.foldr (fun c acc => if c = '"' then '"' :: '"' :: acc else c :: acc) []) ++ "\""

/-- `SQLiteDialect.escapeIdentifier`: split a dotted identifier and escape
each part (the parts contain no dot, so the recursive call reduces to the
base case, inlined here as `escQuote`). -/
def escapeIdentifier (ident : String) : String :=
  if ident.data.contains '.' then
    joinSep "." ((splitOnChar '.' ident.data).map (fun part => escQuote (String.mk part)))
  else escQuote ident

/-- `query.columns.join(', ')` etc. -/
def joinComma (parts : List String) : String :=
  joinSep ", " parts

/-- SELECT clause: raw projection (when truthy) takes precedence, then a
non-empty column list, then `*`. -/
def selectClause (q : QueryStructure) : String :=
  match q.selectRaw with
  | some s => if s ≠ "" then s else if q.columns ≠ [] then joinComma q.columns else "*"
  | none => if q.columns ≠ [] then joinComma q.columns else "*"

/-- One `JOIN` fragment. -/
def joinFragment (j : JoinClause) : String :=
  " " ++ j.kind.str ++ " JOIN " ++ j.table ++ " ON " ++ j.first ++ " " ++ j.op ++ " " ++ j.second

/-- The `sql += fragment` accumulation of the JOIN loop. -/
def concatAll (l : List String) : String :=
  l.foldr (fun s acc => s ++ acc) ""

def joinsClause (q : QueryStructure) : String :=
  concatAll (q.joins.map joinFragment)

/-- The text of one WHERE condition. -/
def whereClauseStr : WhereCond → String
  | .raw sql _ => "(" ++ sql ++ ")"
  | .basic column op value =>
    if op = .inOp ∨ op = .notIn then
      column ++ " " ++ op.str ++ " (" ++ joinComma (value.asList.map (fun _ => "?")) ++ ")"
    else if op = .isOp ∨ op = .isNot then
      column ++ " " ++ op.str ++ " NULL"
    else
      column ++ " " ++ op.str ++ " ?"

/-- The bound values pushed for one WHERE condition, in push order. -/
def whereBindings : WhereCond → List QVal
  | .raw _ bindings => bindings
  | .basic _ op value =>
    if op = .inOp ∨ op = .notIn then value.asList
    else if op = .isOp ∨ op = .isNot then []
    else [value.scalar]

def wheresClause (q : QueryStructure) : String :=
  if q.wheres = [] then ""
  else " WHERE " ++ joinSep " AND " (q.wheres.map whereClauseStr)

/-- One ORDER BY item: raw text verbatim, otherwise escaped column plus
upper-cased direction. -/
def orderItem (o : OrderClause) : String :=
  if o.direction = .raw then o.column
  else escapeIdentifier o.column ++ " " ++ o.direction.upper

def ordersClause (q : QueryStructure) : String :=
  if q.orders = [] then ""
  else " ORDER BY " ++ joinComma (q.orders.map orderItem)

def limitClause (q : QueryStructure) : String :=
  match q.limitValue with
  | some _ => " LIMIT ?"
  | none => ""

def offsetClause (q : QueryStructure) : String :=
  match q.offsetValue with
  | some _ => " OFFSET ?"
  | none => ""

def limitBindings (q : QueryStructure) : List QVal :=
  match q.limitValue with
  | some l => [QVal.i l]
  | none => []

def offsetBindings (q : QueryStructure) : List QVal :=
  match q.offsetValue with
  | some o => [QVal.i o]
  | none => []

/-- `SQLiteDialect.compileSelect`. -/
def compileSelect (q : QueryStructure) : CompiledQuery :=
  { sql := "SELECT " ++ selectClause q ++ " FROM " ++ q.table ++ joinsClause q
      ++ wheresClause q ++ ordersClause q ++ limitClause q ++ offsetClause q
    bindings := q.wheres.flatMap whereBindings ++ limitBindings q ++ offsetBindings q }

/-- `SQLiteDialect.compileInsert`: `Object.keys`/`Object.values` iterate
the data object in insertion order. -/
def compileInsert (table : String) (data : List (String × QVal)) : CompiledQuery :=
  { sql := "INSERT INTO " ++ table ++ " (" ++ joinComma ((data.map Prod.fst).map escapeIdentifier)
      ++ ") VALUES (" ++ joinComma (data.map (fun _ => "?")) ++ ")"
    bindings := data.map Prod.snd }

/-- `SQLiteDialect.compileUpdate`. -/
def compileUpdate (table : String) (data : List (String × QVal)) (primaryKey : String)
    (id : QVal) : CompiledQuery :=
  { sql := "UPDATE " ++ table ++ " SET "
      ++ joinComma ((data.map Prod.fst).map (fun col => escapeIdentifier col ++ " = ?"))
      ++ " WHERE " ++ escapeIdentifier primaryKey ++ " = ?"
    bindings := data.map Prod.snd ++ [id] }

/-- `SQLiteDialect.compileDelete`. -/
def compileDelete (table : String) (primaryKey : String) (id : QVal) : CompiledQuery :=
  { sql := "DELETE FROM " ++ table ++ " WHERE " ++ escapeIdentifier primaryKey ++ " = ?"
    bindings := [id] }

/-- `SQLiteDialect.compileCount`. -/
def compileCount (q : QueryStructure) : CompiledQuery :=
  { sql := "SELECT COUNT(*) as count FROM " ++ q.table ++ joinsClause q ++ wheresClause q
    bindings := q.wheres.flatMap whereBindings }

/-- Number of `?` placeholder markers in a statement text. -/
def countQ (s : String) : Nat :=
  s.data.count '?'

/-! ## The in-memory LRU result cache
(`src/src/plugins/caching/memory.ts`, class `MemoryResultCache`) -/

/-- A query-level cache entry (`CacheEntry` in `memory.ts`). -/
structure CEntry where
  value : List Row
  tags : List String
  expiresAt : Option Nat
  lastUsed : Nat
deriving DecidableEq, Repr

/-- The state of a `MemoryResultCache`: the query-level map, the
tag-to-keys index, and the per-table row cache, plus the constructor's
configuration. -/
structure MemCache where
  cache : List (String × CEntry)
  tagMap : List (String × List String)
  rowCache : List (String × List (QVal × Row))
  maxSize : Nat
  defaultTTL : Option Nat
deriving DecidableEq, Repr

def MemCache.empty (maxSize : Nat := 200) (defaultTTL : Option Nat := none) : MemCache :=
  { cache := [], tagMap := [], rowCache := [], maxSize := maxSize, defaultTTL := defaultTTL }

/-- `ttl || this.defaultTTL` with JS number truthiness (`0` is falsy). -/
def ttlOr (ttl dflt : Option Nat) : Option Nat :=
  match ttl with
  | some t => if t ≠ 0 then some t else match dflt with
    | some d => if d ≠ 0 then some d else none
    | none => none
  | none => match dflt with
    | some d => if d ≠ 0 then some d else none
    | none => none

/-- `MemoryResultCache.delete` (private): remove a key from the query map
and unindex it from every tag it carries, dropping tag sets that become
empty. -/
def cacheDelete (mc : MemCache) (key : String) (tags : List String) : MemCache :=
  let mc := { mc with cache := adelete key mc.cache }
  tags.foldl (fun mc tag =>
    match alookup tag mc.tagMap with
    | some ks =>
      let ks' := ks.erase key
      if ks' = [] then { mc with tagMap := adelete tag mc.tagMap }
      else { mc with tagMap := aset tag ks' mc.tagMap }
    | none => mc) mc

/-- `MemoryResultCache.evictOldest`: evict the first entry with the least
`lastUsed` instant (strict comparison keeps the first minimum). -/
def evictOldest (mc : MemCache) : MemCache :=
  let oldest := mc.cache.foldl (fun acc kv =>
    match acc with
    | none => some kv
    | some kv0 => if kv.2.lastUsed < kv0.2.lastUsed then some kv else acc) none
  match oldest with
  | some (k, e) => cacheDelete mc k e.tags
  | none => mc

/-- `MemoryResultCache.get`: miss on absence, lazily evict an expired
entry (treated as a miss), otherwise touch `lastUsed` and return the
rows.  `entry.expiresAt` is always positive when present, so its JS
truthiness test reduces to presence. -/
def cacheGet (mc : MemCache) (key : String) (now : Nat) : Option (List Row) × MemCache :=
  match alookup key mc.cache with
  | none => (none, mc)
  | some e =>
    match e.expiresAt with
    | some exp =>
      if now > exp then (none, cacheDelete mc key e.tags)
      else (some e.value, { mc with cache := aset key { e with lastUsed := now } mc.cache })
    | none => (some e.value, { mc with cache := aset key { e with lastUsed := now } mc.cache })

/-- `MemoryResultCache.set`: evict the LRU entry when inserting a new key
at capacity, store the entry, and index it under every tag. -/
def cacheSet (mc : MemCache) (key : String) (value : List Row) (tags : List String)
    (ttl : Option Nat) (now : Nat) : MemCache :=
  let mc :=
    if mc.cache.length ≥ mc.maxSize ∧ alookup key mc.cache = none then evictOldest mc
    else mc
  let expiresAt := (ttlOr ttl mc.defaultTTL).map (now + ·)
  let mc := { mc with
    cache := aset key { value := value, tags := tags, expiresAt := expiresAt, lastUsed := now } mc.cache }
  tags.foldl (fun mc tag =>
    { mc with tagMap := aset tag (sadd key ((alookup tag mc.tagMap).getD [])) mc.tagMap }) mc

/-- `MemoryResultCache.getRowById` (the memory row cache carries no
expiry and the read does not mutate). -/
def getRowById (mc : MemCache) (table : String) (id : QVal) : Option Row :=
  match alookup table mc.rowCache with
  | none => none
  | some tableMap => alookup id tableMap

/-- `MemoryResultCache.setRowById`. -/
def setRowById (mc : MemCache) (table : String) (id : QVal) (row : Row) : MemCache :=
  { mc with rowCache := aset table (aset id row ((alookup table mc.rowCache).getD [])) mc.rowCache }

/-- `MemoryResultCache.invalidate`: for each table, delete every
query-level entry indexed under the table tag, drop the tag index, and
clear the table's row cache.  When the tag has no index entry the loop
`continue`s, which also skips the row-cache clear for that table. -/
def cacheInvalidate (mc : MemCache) (tables : List String) : MemCache :=
  tables.foldl (fun mc table =>
    match alookup table mc.tagMap with
    | none => mc
    | some keys =>
      let mc := keys.foldl (fun mc key =>
        match alookup key mc.cache with
        | some e => cacheDelete mc key e.tags
        | none => mc) mc
      let mc := { mc with tagMap := adelete table mc.tagMap }
      { mc with rowCache := adelete table mc.rowCache }) mc

/-- Key-uniqueness helper (JS `Map`s cannot hold duplicate keys). -/
def nodupKeys {κ α : Type} [DecidableEq κ] (l : List (κ × α)) : Bool :=
  match l with
  | [] => true
  | (k, _) :: rest => !(rest.map Prod.fst).contains k && nodupKeys rest

/-- Well-formedness of a `MemoryResultCache` state: map keys are unique
and every cache entry is indexed in the tag map under each of its tags
(the reachability invariant the cache maintains through `set`/`delete`).
This is the invariant `invalidate` relies on to find tagged entries. -/
def MemCache.wf (mc : MemCache) : Bool :=
  nodupKeys mc.cache && nodupKeys mc.tagMap && nodupKeys mc.rowCache &&
  mc.cache.all (fun kv =>
    kv.2.tags.all (fun tag => ((alookup tag mc.tagMap).getD []).contains kv.1))

/-! ## Records and persistence
(`src/src/model.ts` dirty tracking / `src/src/query-builder.ts` hydration /
`src/src/mixins/record-persistence.mixin.ts` writes) -/

/-- The three pieces of record state: current attribute map, last
persisted snapshot (`_original`), and the existence flag (`_exists`).
Loaded relationship values live in separate per-name slots and are
modeled where relationships are (see `eagerLoadFor` below). -/
structure MRec where
  attrs : List (String × QVal)
  original : List (String × QVal)
  existsF : Bool
deriving DecidableEq, Repr

/-- `Model.getDirty`: the attribute keys whose current value differs
(JS strict inequality) from the original snapshot; a key missing from
the snapshot reads as `undefined` there. -/
def getDirty (m : MRec) : List String :=
  m.attrs.filterMap (fun kv => if kv.2 ≠ attrGet m.original kv.1 then some kv.1 else none)

/-- `QueryBuilder.hydrate`: internal state set directly so nothing is
marked dirty; `existsF = true`, original = current = row. -/
def hydrate (row : Row) : MRec :=
  { attrs := row, original := row, existsF := true }

/-- A data-property write through the model proxy:
`target._attributes[prop] = value`. -/
def setAttr (m : MRec) (k : String) (v : QVal) : MRec :=
  { m with attrs := aset k v m.attrs }

/-- Resolved model configuration (`getConfig`, after table-name
derivation and defaulting). -/
structure ModelCfg where
  table : String
  primaryKey : String
deriving DecidableEq, Repr

/-- `TimestampConfig`. -/
structure TsConfig where
  created_at : String
  updated_at : String
deriving DecidableEq, Repr

/-- The ORM-side world a persistence operation touches: the optional
result-cache adapter and the log of statements issued through the
database adapter (`adapter.execute` / `adapter.insert`). -/
structure WWorld where
  cacheAdapter : Option MemCache
  execLog : List CompiledQuery
deriving DecidableEq, Repr

/-- `ORM.invalidateResultCache`: forwarded to the cache adapter when one
is configured. -/
def invalidateResultCache (w : WWorld) (tables : List String) : WWorld :=
  match w.cacheAdapter with
  | some mc => { w with cacheAdapter := some (cacheInvalidate mc tables) }
  | none => w

/-- `RecordPersistenceMixin.update` (the body queued through
`queueWrite`): error on a non-existing record; short-circuit when no
field is dirty; otherwise compile and execute an UPDATE of exactly the
dirty fields (plus `updated_at` when timestamps are enabled), sync the
snapshot, and invalidate the table's cache entries.  `now` stands for
`dialect.getCurrentTimestamp()`. -/
def updateRecord (cfg : ModelCfg) (ts : Option TsConfig) (now : String) (m : MRec)
    (w : WWorld) : Except String (MRec × WWorld) :=
  if !m.existsF then
    .error "Cannot update a model that does not exist. Use insert() instead."
  else
    let dirtyFields := getDirty m
    if dirtyFields = [] then .ok (m, w)
    else
      let data := dirtyFields.foldl (fun d f => aset f (attrGet m.attrs f) d) []
      let data := match ts with
        | some t => aset t.updated_at (QVal.s now) data
        | none => data
      let attrs := match ts with
        | some t => aset t.updated_at (QVal.s now) m.attrs
        | none => m.attrs
      let id := attrGet attrs cfg.primaryKey
      let compiled := compileUpdate cfg.table data cfg.primaryKey id
      let w := { w with execLog := w.execLog ++ [compiled] }
      let m' : MRec := { attrs := attrs, original := attrs, existsF := m.existsF }
      let w := invalidateResultCache w [cfg.table]
      .ok (m', w)

/-- `RecordPersistenceMixin.insert` (the queued body): set both
timestamps when enabled, compile and execute the INSERT, store the
adapter-assigned id (`newId`) under the primary key, mark the record
existing, sync the snapshot, and invalidate the table. -/
def insertRecord (cfg : ModelCfg) (ts : Option TsConfig) (now : String) (newId : QVal)
    (m : MRec) (w : WWorld) : MRec × WWorld :=
  let attrs := match ts with
    | some t => aset t.updated_at (QVal.s now) (aset t.created_at (QVal.s now) m.attrs)
    | none => m.attrs
  let compiled := compileInsert cfg.table attrs
  let w := { w with execLog := w.execLog ++ [compiled] }
  let attrs := aset cfg.primaryKey newId attrs
  let m' : MRec := { attrs := attrs, original := attrs, existsF := true }
  let w := invalidateResultCache w [cfg.table]
  (m', w)

/-- `RecordPersistenceMixin.delete` (the queued body). -/
def deleteRecord (cfg : ModelCfg) (m : MRec) (w : WWorld) :
    Except String (MRec × WWorld) :=
  if !m.existsF then .error "Cannot delete a model that does not exist."
  else
    let id := attrGet m.attrs cfg.primaryKey
    let compiled := compileDelete cfg.table cfg.primaryKey id
    let w := { w with execLog := w.execLog ++ [compiled] }
    let m' := { m with existsF := false }
    let w := invalidateResultCache w [cfg.table]
    .ok (m', w)

/-! ## Transaction manager (`ORM.transaction`, `src/dist/orm.js` /
`src/unnamed/part_012`) -/

inductive TxEvent where
  | beginTx | commitTx | rollbackTx
deriving DecidableEq, Repr

/-- Adapter transaction state: whether `inTransaction()` reports an open
transaction, plus the ordered log of transaction primitives issued. -/
structure TxState where
  inTx : Bool
  events : List TxEvent
deriving DecidableEq, Repr

def beginTransaction (s : TxState) : TxState :=
  { inTx := true, events := s.events ++ [.beginTx] }

def commitTransaction (s : TxState) : TxState :=
  { inTx := false, events := s.events ++ [.commitTx] }

def rollbackTransaction (s : TxState) : TxState :=
  { inTx := false, events := s.events ++ [.rollbackTx] }

/-- `ORM.transaction(callback)`: begin only when the adapter reports no
open transaction, run the callback, commit on success / roll back on
error (again only when this call opened the transaction), and always
re-raise the callback's error. -/
def transactionRun {E A : Type} (cb : TxState → TxState × Except E A) (s : TxState) :
    TxState × Except E A :=
  let wasInTransaction := s.inTx
  let s1 := if !wasInTransaction then beginTransaction s else s
  match cb s1 with
  | (s2, .ok a) => ((if !wasInTransaction then commitTransaction s2 else s2), .ok a)
  | (s2, .error e) => ((if !wasInTransaction then rollbackTransaction s2 else s2), .error e)

/-! ## Write queue (`ORM.queueWrite`) -/

/-- The per-connection promise chain `this.writeQueue`.  `chain` is the
world transformation performed by awaiting the current chain: every
queued operation's state effect in submission order, with rejections
swallowed by the `.catch(() => {})` continuation (the world an operation
produced is kept even when its result is an error). -/
structure QueueState (W : Type) where
  chain : W → W

/-- `Promise.resolve()`: the initial, already-settled chain. -/
def QueueState.initial {W : Type} : QueueState W := { chain := id }

/-- `ORM.queueWrite(operation)`: when the queue is disabled the operation
itself runs immediately; when enabled, the returned outcome is the
operation run after the current chain settles
(`this.writeQueue.then(() => operation())`), and the new chain keeps the
operation's effect while dropping its error
(`this.writeQueue = result.catch(() => {})`). -/
def queueWrite {W E A : Type} (enableWriteQueue : Bool) (q : QueueState W)
    (op : W → W × Except E A) : QueueState W × (W → W × Except E A) :=
  if enableWriteQueue then
    let result := fun w => op (q.chain w)
    ({ chain := fun w => (result w).1 }, result)
  else (q, op)

/-- Submit a list of operations through the enabled queue in order,
collecting each caller's returned outcome function. -/
def submitQueue {W E A : Type} (ops : List (W → W × Except E A)) (q : QueueState W) :
    QueueState W × List (W → W × Except E A) :=
  match ops with
  | [] => (q, [])
  | op :: rest =>
    let step := queueWrite true q op
    let next := submitQueue rest step.1
    (next.1, step.2 :: next.2)

/-- The world after the state effects of a list of operations run
sequentially in submission order. -/
def runEffects {W E A : Type} (ops : List (W → W × Except E A)) (w : W) : W :=
  ops.foldl (fun w op => (op w).1) w

/-! ## Cache keys (`ORM.makeCacheKey`, `src/dist/orm.js`) -/

/-! JS values as seen by `stableStringify`: primitives, arrays, and plain
objects (first-order mutual presentation so that structural recursion and
induction stay simple). -/
mutual
inductive JVal where
  | str (v : String)
  | num (v : Int)
  | boolv (v : Bool)
  | jnull
  | jundef
  | arr (vs : JList)
  | obj (fs : JFields)
inductive JList where
  | jnil
  | jcons (hd : JVal) (tl : JList)
inductive JFields where
  | fnil
  | fcons (k : String) (v : JVal) (tl : JFields)
end

/-- Scalar query values embed into `JVal`. -/
def QVal.toJVal : QVal → JVal
  | .s v => .str v
  | .i v => .num v
  | .b v => .boolv v
  | .null => .jnull
  | .undef => .jundef

def paramsToJList (params : List QVal) : JList :=
  params.foldr (fun v acc => .jcons v.toJVal acc) .jnil

def hexDigit (n : Nat) : Char :=
  if n < 10 then Char.ofNat (48 + n) else Char.ofNat (87 + n)

/-- `JSON.stringify` escaping for one character of a string value. -/
def jsonEscChar (c : Char) : List Char :=
  if c = '"' then ['\\', '"']
  else if c = '\\' then ['\\', '\\']
  else if c = '\n' then ['\\', 'n']
  else if c = '\r' then ['\\', 'r']
  else if c = '\t' then ['\\', 't']
  else if c = '\x08' then ['\\', 'b']
  else if c = '\x0c' then ['\\', 'f']
  else if c.toNat < 32 then
    ['\\', 'u', '0', '0', hexDigit (c.toNat / 16), hexDigit (c.toNat % 16)]
  else [c]

/-- `JSON.stringify` of a string. -/
def jsonQuote (s : String) : String :=
  "\"" ++ String.mk (s.data.flatMap jsonEscChar) ++ "\""

/-- Insertion into a key-sorted list of rendered object fields.  With the
distinct keys JS objects guarantee, any comparison sort produces the same
result as `Object.keys(value).sort()`. -/
def insortPair (p : String × String) : List (String × String) → List (String × String)
  | [] => [p]
  | q :: rest => if p.1 ≤ q.1 then p :: q :: rest else q :: insortPair p rest

def sortPairs (l : List (String × String)) : List (String × String) :=
  l.foldr insortPair []

/-- Render an object body from its (key, rendered value) pairs: sorted
keys, `"key":value` items joined by commas. -/
def stringifyObj (pairs : List (String × String)) : String :=
  String.intercalate "," ((sortPairs pairs).map (fun p => jsonQuote p.1 ++ ":" ++ p.2))

/-! `stableStringify` from `ORM.makeCacheKey`: arrays element-wise,
objects with sorted keys at every nesting level, primitives via
`JSON.stringify`.  (JS renders a bare `undefined` without quotes; the
claims below never depend on that corner.)  Number rendering matches JS
for integral doubles below 2^53. -/
mutual
def stableStringify : JVal → String
  | .str v => jsonQuote v
  | .num v => toString v
  | .boolv true => "true"
  | .boolv false => "false"
  | .jnull => "null"
  | .jundef => "undefined"
  | .arr vs => "[" ++ String.intercalate "," (stringifyItems vs) ++ "]"
  | .obj fs => "\x7b" ++ stringifyObj (fieldStrings fs) ++ "\x7d"
def stringifyItems : JList → List String
  | .jnil => []
  | .jcons v tl => stableStringify v :: stringifyItems tl
def fieldStrings : JFields → List (String × String)
  | .fnil => []
  | .fcons k v tl => (k, stableStringify v) :: fieldStrings tl
end

/-- `Object`-style field lookup (JS object keys are distinct, so the
first match is the only one). -/
def flookup (k : String) : JFields → Option JVal
  | .fnil => none
  | .fcons k2 v tl => if k2 = k then some v else flookup k tl

/-- `Object.keys` in insertion order. -/
def fkeys : JFields → List String
  | .fnil => []
  | .fcons k _ tl => k :: fkeys tl

/-! Structural equivalence of JS values up to object-key ordering:
primitives must be equal, arrays equal element-wise, and objects must
have the same number of distinct keys with equivalent values under each
key. -/
mutual
def jeqv : JVal → JVal → Bool
  | .str a, .str b => a == b
  | .num a, .num b => a == b
  | .boolv a, .boolv b => a == b
  | .jnull, .jnull => true
  | .jundef, .jundef => true
  | .arr as, .arr bs => jeqvL as bs
  | .obj fs, .obj gs =>
    decide ((fkeys fs).length = (fkeys gs).length) && decide ((fkeys fs).Nodup) &&
    decide ((fkeys gs).Nodup) && jeqvSub fs gs
  | _, _ => false
def jeqvL : JList → JList → Bool
  | .jnil, .jnil => true
  | .jcons a as, .jcons b bs => jeqv a b && jeqvL as bs
  | _, _ => false
def jeqvSub : JFields → JFields → Bool
  | .fnil, _ => true
  | .fcons k v tl, gs =>
    (match flookup k gs with
     | some w => jeqv v w
     | none => false) && jeqvSub tl gs
end

/-- The whitespace class used for `\s` and `trim` (ASCII whitespace plus
NBSP and the BOM; JS additionally matches the rarer Unicode space
separators, which never occur in the compiled statements at issue). -/
def isWs (c : Char) : Bool :=
  c = ' ' || c = '\t' || c = '\n' || c = '\r' || c = '\x0b' || c = '\x0c' ||
  c = ' ' || c = '﻿'

/-- `sql.replace(/\s+/g, ' ')`: collapse every maximal whitespace run to
a single space (`prevWs` tracks whether the previous character was part
of a run). -/
def collapseWs (prevWs : Bool) : List Char → List Char
  | [] => []
  | c :: rest =>
    if isWs c then
      if prevWs then collapseWs true rest else ' ' :: collapseWs true rest
    else c :: collapseWs false rest

/-- `.trim()`. -/
def trimChars (l : List Char) : List Char :=
  ((l.dropWhile isWs).reverse.dropWhile isWs).reverse

/-- Drop trailing whitespace. -/
def rtrimWs (l : List Char) : List Char :=
  (l.reverse.dropWhile isWs).reverse

/-- The maximal non-whitespace runs (tokens) of a character list. -/
def wsTokens : List Char → List (List Char)
  | [] => []
  | c :: rest =>
    if isWs c then wsTokens rest
    else
      match rest with
      | [] => [[c]]
      | d :: _ =>
        if isWs d then [c] :: wsTokens rest
        else
          match wsTokens rest with
          | [] => [[c]]
          | tok :: toks => (c :: tok) :: toks

/-- Tokens joined by single spaces. -/
def joinTokens : List (List Char) → List Char
  | [] => []
  | [t] => t
  | t :: t2 :: ts => t ++ ' ' :: joinTokens (t2 :: ts)

/-- The normalized statement text inside a cache key: whitespace
collapsed, trimmed, case-folded (`Char.toLower` is ASCII-only, like the
letters of a SQL statement). -/
def normalizeSql (s : String) : String :=
  String.mk ((trimChars (collapseWs false s.data)).map Char.toLower)

/-- `ORM.makeCacheKey`. -/
def makeCacheKey (connectionId : String) (sql : String) (params : JList) : String :=
  connectionId ++ "|" ++ normalizeSql sql ++ "|" ++ stableStringify (JVal.arr params)

/-! ## Hybrid cached reads (`ORM.cachedSelect`, `src/dist/orm.js`) -/

/-- Case-insensitive literal prefix matching (the letter-by-letter
behavior of a case-insensitive JS regex on literal pattern text). -/
def stripCI : List Char → List Char → Option (List Char)
  | [], s => some s
  | _ :: _, [] => none
  | p :: ps, c :: cs => if p.toLower = c.toLower then stripCI ps cs else none

/-- Characters the JS regex `.` does not match (no `s` flag). -/
def dotNoMatch (c : Char) : Bool :=
  c = '\n' || c = '\r' || c = ' ' || c = ' '

/-- `sql.match(/^SELECT \* FROM ([^ ]+) WHERE (.+)$/i)`: the table is the
first space-delimited token after the literal header (the greedy `[^ ]+`
admits no other split), followed by the literal ` WHERE ` and a non-empty
newline-free tail. -/
def selectStarMatch (sql : String) : Option (String × String) :=
  match stripCI "SELECT * FROM ".data sql.data with
  | none => none
  | some rest =>
    let table := rest.takeWhile (· ≠ ' ')
    let rest2 := rest.dropWhile (· ≠ ' ')
    if table = [] then none
    else
      match stripCI " WHERE ".data rest2 with
      | none => none
      | some wpart =>
        if wpart ≠ [] ∧ wpart.all (fun c => !dotNoMatch c) then
          some (String.mk table, String.mk wpart)
        else none

/-- `where.match(/^id\s*=\s*\?/i)` (not anchored at the end). -/
def eqMatchW (w : List Char) : Bool :=
  match stripCI "id".data w with
  | none => false
  | some r =>
    match r.dropWhile isWs with
    | '=' :: r2 =>
      match r2.dropWhile isWs with
      | '?' :: _ => true
      | _ => false
    | _ => false

/-- The backtracking search of `(.+)\)`: some `)` preceded by at least
one more `.`-matchable character. -/
def seekClose : List Char → Bool
  | [] => false
  | c :: rest => if c = ')' then true else if dotNoMatch c then false else seekClose rest

/-- `where.match(/^id\s+IN\s*\((.+)\)/i)` (not anchored at the end). -/
def inMatchW (w : List Char) : Bool :=
  match stripCI "id".data w with
  | none => false
  | some r =>
    match r with
    | [] => false
    | c :: r2 =>
      if isWs c then
        match stripCI "IN".data (r2.dropWhile isWs) with
        | none => false
        | some r4 =>
          match r4.dropWhile isWs with
          | '(' :: r5 =>
            match r5 with
            | [] => false
            | c0 :: r6 => if dotNoMatch c0 then false else seekClose r6
          | _ => false
      else false

/-- The caching-relevant ORM configuration. -/
structure OrmCfg where
  connectionId : String
  disableResultCache : Bool
  inTransaction : Bool
deriving DecidableEq, Repr

/-- `ORM.cachedSelect(sql, params, tables)`: bypass the cache inside
transactions, when caching is disabled, or without an adapter; serve
recognized single-id and id-set full-row fetches through the row cache
(fetching only the missing ids in one batched IN statement and re-merging
in the caller's id order); everything else through the query-level cache.
Returns the rows, the updated cache, and the statements issued through
`adapter.query`. -/
def cachedSelect (db : String → List QVal → List Row) (cfg : OrmCfg)
    (cacheAdapter : Option MemCache) (now : Nat) (sql : String) (params : List QVal)
    (tables : List String) : List Row × Option MemCache × List (String × List QVal) :=
  match cacheAdapter with
  | none => (db sql params, none, [(sql, params)])
  | some mc =>
    if cfg.disableResultCache || cfg.inTransaction then
      (db sql params, some mc, [(sql, params)])
    else
      let queryLevel : List Row × Option MemCache × List (String × List QVal) :=
        let key := makeCacheKey cfg.connectionId sql (paramsToJList params)
        match cacheGet mc key now with
        | (some cached, mc') => (cached, some mc', [])
        | (none, mc') =>
          let result := db sql params
          (result, some (cacheSet mc' key result tables none now), [(sql, params)])
      match selectStarMatch sql with
      | none => queryLevel
      | some (table, wstr) =>
        if eqMatchW wstr.data ∧ params.length = 1 then
          let p := params.headD QVal.undef
          match getRowById mc table p with
          | some row => ([row], some mc, [])
          | none =>
            let result := db sql params
            let mc := match result with
              | r0 :: _ => setRowById mc table p r0
              | [] => mc
            (result, some mc, [(sql, params)])
        else if inMatchW wstr.data then
          let step := params.foldl (fun (acc : List Row × List QVal) id =>
            (getRowById mc table id).elim (acc.1, acc.2 ++ [id])
              (fun row => (acc.1 ++ [row], acc.2))) ([], [])
          let cachedRows := step.1
          let missingIds := step.2
          if missingIds ≠ [] then
            let fetchSql := "SELECT * FROM " ++ table ++ " WHERE id IN ("
              ++ joinComma (missingIds.map (fun _ => "?")) ++ ")"
            let fetchedRows := db fetchSql missingIds
            let mc := fetchedRows.foldl (fun mc row => setRowById mc table (attrGet row "id") row) mc
            let idToRow := fetchedRows.foldl (fun m row => aset (attrGet row "id") row m)
              (cachedRows.foldl (fun m row => aset (attrGet row "id") row m) [])
            (params.filterMap (fun id => alookup id idToRow), some mc, [(fetchSql, missingIds)])
          else
            let idToRow := cachedRows.foldl (fun m row => aset (attrGet row "id") row m) []
            (params.filterMap (fun id => alookup id idToRow), some mc, [])
        else queryLevel

/-! ## Relationship resolver
(`src/src/relationships/hasMany.ts`, `hasOne.ts`, `morphTo.ts`,
`src/unnamed/part_017` (`BelongsTo`), `src/unnamed/part_013`
(`BelongsToMany`), and `QueryBuilder.loadRelationships` in
`src/src/query-builder.ts`). -/

/-- The database adapter's `query` method as a pure oracle. -/
def DB : Type := String → List QVal → List Row

/-- The eager loaders assign each parent exactly one value: normally into
the private slot `model[`_name`]`, but the empty-pivot branch of
`BelongsToMany.eagerLoadFor` writes to `model[name]`, which the attribute
proxy stores as a public attribute instead. -/
inductive WriteKind where
  | privateSlot
  | publicAttr
deriving DecidableEq, Repr

/-- A loaded relationship value. -/
inductive RelVal where
  | rnull
  | rone (m : MRec)
  | rmany (ms : List MRec)
deriving DecidableEq, Repr

/-- The observable outcome of one `eagerLoadFor` call: the value written
for each parent (aligned with the parent list), the statements issued,
and the `console.warn` diagnostics emitted. -/
structure EagerOut where
  writes : List (WriteKind × RelVal)
  queries : List (String × List QVal)
  warns : List String
deriving Repr

/-- `[...new Set(l)]`: deduplicate keeping first occurrences. -/
def dedupFirst {α : Type} [DecidableEq α] (l : List α) : List α :=
  l.foldl (fun acc x => if x ∈ acc then acc else acc ++ [x]) []

/-- `new QueryBuilder(related, tableName).where(col, 'IN', vals).get()`
on a connection where `cachedSelect` degenerates to `adapter.query`
(no cache adapter / caching disabled): compile the single-IN-condition
select, query, and hydrate every row. -/
def queryGetIN (db : DB) (table col : String) (vals : List QVal) :
    List MRec × (String × List QVal) :=
  let compiled := compileSelect { table := table, wheres := [.basic col .inOp (.many vals)], orders := [] }
  ((db compiled.sql compiled.bindings).map hydrate, (compiled.sql, compiled.bindings))

/-- `HasMany.eagerLoadFor` (`src/src/relationships/hasMany.ts`): map every
parent's local-key value (no null filtering, no deduplication), issue one
IN query, group the related models by foreign-key value, and assign each
parent its group (empty list when none). -/
def hasManyEagerLoadFor (db : DB) (relTable foreignKey localKey : String)
    (models : List MRec) : EagerOut :=
  let localValues := models.map (fun m => attrGet m.attrs localKey)
  let q := queryGetIN db relTable foreignKey localValues
  let relatedMap := q.1.foldl (fun acc related =>
    let fv := attrGet related.attrs foreignKey
    aset fv (((alookup fv acc).getD []) ++ [related]) acc) []
  { writes := models.map (fun m =>
      (WriteKind.privateSlot, RelVal.rmany ((alookup (attrGet m.attrs localKey) relatedMap).getD [])))
    queries := [q.2]
    warns := [] }

/-- `HasOne.eagerLoadFor` (`src/src/relationships/hasOne.ts`): when every
local-key value is loosely null assign `null` everywhere without
querying; otherwise one IN query over the distinct non-null values, each
parent matched by foreign-key value (later rows overwrite earlier ones in
the lookup map). -/
def hasOneEagerLoadFor (db : DB) (relTable foreignKey localKey : String)
    (models : List MRec) : EagerOut :=
  let localValues := models.map (fun m => attrGet m.attrs localKey)
  if !localValues.any QVal.nonNull then
    { writes := models.map (fun _ => (WriteKind.privateSlot, RelVal.rnull))
      queries := [], warns := [] }
  else
    let uniqueValues := dedupFirst (localValues.filter QVal.nonNull)
    let q := queryGetIN db relTable foreignKey uniqueValues
    let relatedMap := q.1.foldl (fun acc r => aset (attrGet r.attrs foreignKey) r acc) []
    { writes := models.map (fun m =>
        match alookup (attrGet m.attrs localKey) relatedMap with
        | some r => (WriteKind.privateSlot, RelVal.rone r)
        | none => (WriteKind.privateSlot, RelVal.rnull))
      queries := [q.2], warns := [] }

/-- `BelongsTo.eagerLoadFor` (`src/unnamed/part_017`): symmetric to
`HasOne`, with the foreign key on the parent and the match on the related
model's local key. -/
def belongsToEagerLoadFor (db : DB) (relTable foreignKey localKey : String)
    (models : List MRec) : EagerOut :=
  let foreignValues := models.map (fun m => attrGet m.attrs foreignKey)
  if !foreignValues.any QVal.nonNull then
    { writes := models.map (fun _ => (WriteKind.privateSlot, RelVal.rnull))
      queries := [], warns := [] }
  else
    let uniqueValues := dedupFirst (foreignValues.filter QVal.nonNull)
    let q := queryGetIN db relTable localKey uniqueValues
    let relatedMap := q.1.foldl (fun acc r => aset (attrGet r.attrs localKey) r acc) []
    { writes := models.map (fun m =>
        match alookup (attrGet m.attrs foreignKey) relatedMap with
        | some r => (WriteKind.privateSlot, RelVal.rone r)
        | none => (WriteKind.privateSlot, RelVal.rnull))
      queries := [q.2], warns := [] }

/-- `BelongsToMany.eagerLoadFor` (`src/unnamed/part_013`, lines 317-409):
all-null parent keys short-circuit with empty lists; otherwise one direct
adapter query against the pivot table over the distinct non-null parent
keys; when it returns no rows, each parent is assigned `[]` through the
public attribute path and the related-table query is skipped; otherwise a
second IN query against the related table, and pivot rows pair parents
with related models. -/
def belongsToManyEagerLoadFor (db : DB)
    (relTable pivotTable foreignPivotKey relatedPivotKey parentKey relatedKey : String)
    (models : List MRec) : EagerOut :=
  let parentValues := models.map (fun m => attrGet m.attrs parentKey)
  if !parentValues.any QVal.nonNull then
    { writes := models.map (fun _ => (WriteKind.privateSlot, RelVal.rmany []))
      queries := [], warns := [] }
  else
    let uniqueParentValues := dedupFirst (parentValues.filter QVal.nonNull)
    let pivotCompiled := compileSelect
      { table := pivotTable
        wheres := [.basic foreignPivotKey .inOp (.many uniqueParentValues)]
        orders := [] }
    let pivotRows := db pivotCompiled.sql pivotCompiled.bindings
    if pivotRows = [] then
      { writes := models.map (fun _ => (WriteKind.publicAttr, RelVal.rmany []))
        queries := [(pivotCompiled.sql, pivotCompiled.bindings)], warns := [] }
    else
      let relatedIds := dedupFirst (pivotRows.map (fun row => attrGet row relatedPivotKey))
      let q2 := queryGetIN db relTable relatedKey relatedIds
      let relatedMap := q2.1.foldl (fun acc r => aset (attrGet r.attrs relatedKey) r acc) []
      let parentRelatedMap := pivotRows.foldl (fun acc prow =>
        let pv := attrGet prow foreignPivotKey
        (alookup (attrGet prow relatedPivotKey) relatedMap).elim acc
          (fun rm => aset pv (((alookup pv acc).getD []) ++ [rm]) acc)) []
      { writes := models.map (fun m =>
          (WriteKind.privateSlot,
           RelVal.rmany ((alookup (attrGet m.attrs parentKey) parentRelatedMap).getD [])))
        queries := [(pivotCompiled.sql, pivotCompiled.bindings), q2.2], warns := [] }

/-- The compiled single-IN-condition select used by every eager loader. -/
@[reducible] def inSelect (t c : String) (vals : List QVal) : CompiledQuery :=
  compileSelect { table := t, wheres := [.basic c .inOp (.many vals)], orders := [] }

/-- The key values of a column across a parent batch. -/
@[reducible] def keysOf (k : String) (models : List MRec) : List QVal :=
  models.map (fun m => attrGet m.attrs k)

/-- The hydrated result of running an `inSelect` against the adapter. -/
@[reducible] def inRows (db : DB) (t c : String) (vals : List QVal) : List MRec :=
  (db (inSelect t c vals).sql (inSelect t c vals).bindings).map hydrate

/-- The pivot-table select issued by `BelongsToMany.eagerLoadFor`. -/
@[reducible] def pivotSel (pivotTable fpk pk : String) (models : List MRec) : CompiledQuery :=
  inSelect pivotTable fpk (dedupFirst ((keysOf pk models).filter QVal.nonNull))

/-- The raw pivot rows returned for a parent batch. -/
@[reducible] def pivotRowsOf (db : DB) (pivotTable fpk pk : String) (models : List MRec) : List Row :=
  db (pivotSel pivotTable fpk pk models).sql (pivotSel pivotTable fpk pk models).bindings

/-- The distinct related-side ids extracted from the pivot rows. -/
@[reducible] def pivotRelIds (db : DB) (pivotTable fpk rpk pk : String) (models : List MRec) :
    List QVal :=
  dedupFirst ((pivotRowsOf db pivotTable fpk pk models).map (fun row => attrGet row rpk))

/-- JS truthiness of a query value (`if (!discriminatorValue)`). -/
def qvTruthy : QVal → Bool
  | .s v => v ≠ ""
  | .i v => v ≠ 0
  | .b v => v
  | .null => false
  | .undef => false

/-- JS property-key / template-string coercion of a value. -/
def qvalPropKey : QVal → String
  | .s v => v
  | .i v => toString v
  | .b true => "true"
  | .b false => "false"
  | .null => "null"
  | .undef => "undefined"

/-- The resolved target of one entry of a `MorphTo` morph map: the
related model's table and primary key (`config.primaryKey || 'id'`). -/
structure MorphTarget where
  table : String
  primaryKey : String
deriving DecidableEq, Repr

/-- Accumulator for `MorphTo.eagerLoadFor` (per-parent-index
assignments, issued queries, emitted warnings). -/
structure MorphAcc where
  assigns : List (Nat × RelVal)
  queries : List (String × List QVal)
  warns : List String

/-- `MorphTo.eagerLoadFor` (`src/src/relationships/morphTo.ts`): parents
with a falsy discriminator get `null` immediately; the rest are grouped
by discriminator value; an unmapped discriminator emits a `console.warn`
diagnostic and assigns `null` to its group instead of throwing; each
mapped group with at least one non-null foreign key issues one IN query
against its target's primary key. -/
def morphToEagerLoadFor (db : DB) (discField fkField : String)
    (morphMap : List (String × MorphTarget)) (models : List MRec) : EagerOut :=
  let indexed := models.enum
  let phase1 := indexed.foldl
    (fun (acc : List (Nat × RelVal) × List (QVal × List (Nat × MRec))) im =>
      let dv := attrGet im.2.attrs discField
      if !qvTruthy dv then (acc.1 ++ [(im.1, RelVal.rnull)], acc.2)
      else (acc.1, aset dv (((alookup dv acc.2).getD []) ++ [im]) acc.2))
    ([], [])
  let final := phase1.2.foldl (fun (acc : MorphAcc) g =>
    let dv := g.1
    let gms := g.2
    match alookup (qvalPropKey dv) morphMap with
    | none =>
      { acc with
        assigns := acc.assigns ++ gms.map (fun im => (im.1, RelVal.rnull))
        warns := acc.warns ++ ["No model mapped for discriminator value: " ++ qvalPropKey dv] }
    | some target =>
      let foreignKeys := (gms.map (fun im => attrGet im.2.attrs fkField)).filter
        (fun v => v ≠ QVal.null ∧ v ≠ QVal.undef)
      if foreignKeys = [] then
        { acc with assigns := acc.assigns ++ gms.map (fun im => (im.1, RelVal.rnull)) }
      else
        let uniqueForeignKeys := dedupFirst foreignKeys
        let q := queryGetIN db target.table target.primaryKey uniqueForeignKeys
        let relatedMap := q.1.foldl (fun m r => aset (attrGet r.attrs target.primaryKey) r m) []
        { acc with
          assigns := acc.assigns ++ gms.map (fun im =>
            (im.1, match alookup (attrGet im.2.attrs fkField) relatedMap with
                   | some r => RelVal.rone r
                   | none => RelVal.rnull))
          queries := acc.queries ++ [q.2] })
    { assigns := phase1.1, queries := [], warns := [] }
  { writes := (List.range models.length).map (fun i =>
      (WriteKind.privateSlot, (alookup i final.assigns).getD RelVal.rnull))
    queries := final.queries
    warns := final.warns }

/-- A relationship descriptor with its construction-time configuration
resolved (related class name for nested traversal, related table, key
names). -/
inductive RelDesc where
  | hasManyR (relatedClass relTable foreignKey localKey : String)
  | hasOneR (relatedClass relTable foreignKey localKey : String)
  | belongsToR (relatedClass relTable foreignKey localKey : String)
  | belongsToManyR (relatedClass relTable pivotTable foreignPivotKey relatedPivotKey
      parentKey relatedKey : String)
  | morphToR (discField fkField : String) (morphMap : List (String × MorphTarget))
deriving Repr

/-- Dispatch `relationship.eagerLoadFor(models, name)`. -/
def relEagerLoadFor (db : DB) (rd : RelDesc) (models : List MRec) : EagerOut :=
  match rd with
  | .hasManyR _ relTable fk lk => hasManyEagerLoadFor db relTable fk lk models
  | .hasOneR _ relTable fk lk => hasOneEagerLoadFor db relTable fk lk models
  | .belongsToR _ relTable fk lk => belongsToEagerLoadFor db relTable fk lk models
  | .belongsToManyR _ relTable pt fpk rpk pk rk =>
    belongsToManyEagerLoadFor db relTable pt fpk rpk pk rk models
  | .morphToR discField fkField morphMap => morphToEagerLoadFor db discField fkField morphMap models

/-- `relationship.getRelated()`: the `MorphTo` class does not define it
(calling it there is a `TypeError` at runtime). -/
def relGetRelated : RelDesc → Option String
  | .hasManyR c _ _ _ => some c
  | .hasOneR c _ _ _ => some c
  | .belongsToR c _ _ _ => some c
  | .belongsToManyR c _ _ _ _ _ _ => some c
  | .morphToR _ _ _ => none

/-- The model registry: class name to its static relationships table
(`modelConstructor.relationships`). -/
def Registry : Type := List (String × List (String × RelDesc))

/-- `getRelatedModelsFromLoadedRelationship` composed with the non-null
filter: the models written to private slots, arrays flattened in parent
order (a public-attribute write is invisible to the private-slot read). -/
def extractRelated (writes : List (WriteKind × RelVal)) : List MRec :=
  writes.flatMap (fun wv =>
    match wv with
    | (WriteKind.privateSlot, .rone m) => [m]
    | (WriteKind.privateSlot, .rmany ms) => ms
    | (WriteKind.privateSlot, .rnull) => []
    | (WriteKind.publicAttr, _) => [])

/-- Accumulated observable effects of relationship loading. -/
structure EagerAcc where
  queries : List (String × List QVal)
  warns : List String
deriving DecidableEq, Repr

def EagerAcc.app (a b : EagerAcc) : EagerAcc :=
  { queries := a.queries ++ b.queries, warns := a.warns ++ b.warns }

mutual
/-- `QueryBuilder.loadNestedRelationship` on an already-split dot path
(`first` plus the remaining segments): an unknown first segment throws;
otherwise eager-load it and recurse on the related models when the
remaining path is non-trivial and the extracted related set is
non-empty.  The source guards the recursion with
`if (remainingRelations)` — the JS truthiness of the *re-joined* string
`relationParts.slice(1).join('.')` — so a trailing empty segment
(a path like `posts.`, whose remainder is `[""]` and re-joins to the
falsy `""`) silently stops after the first level instead of recursing. -/
def loadNestedRel (reg : Registry) (db : DB) (models : List MRec) (first : String)
    (restParts : List String) (relationships : List (String × RelDesc)) :
    Except String EagerAcc :=
  match alookup first relationships with
  | none => .error ("Relationship '" ++ first ++ "' not found in static relationships constant")
  | some rd =>
    let out := relEagerLoadFor db rd models
    match restParts with
    | [] => .ok ⟨out.queries, out.warns⟩
    | r1 :: rrest =>
      if joinSep "." (r1 :: rrest) = "" then .ok ⟨out.queries, out.warns⟩
      else
        let valid := extractRelated out.writes
        if valid = [] then .ok ⟨out.queries, out.warns⟩
        else
          match relGetRelated rd with
          | none => .error "TypeError: relationship.getRelated is not a function"
          | some relCls =>
            match loadNestedOnRelated reg db valid r1 rrest relCls with
            | .ok acc2 => .ok (EagerAcc.app ⟨out.queries, out.warns⟩ acc2)
            | .error e => .error e
termination_by (restParts.length, 0)

/-- `QueryBuilder.loadNestedRelationshipOnRelatedModels`: an empty or
missing relationships table on the related class silently succeeds; a
still-nested path recurses; the final segment throws when unknown
(message naming the related class), otherwise eager-loads. -/
def loadNestedOnRelated (reg : Registry) (db : DB) (relatedModels : List MRec)
    (first : String) (restParts : List String) (relCls : String) :
    Except String EagerAcc :=
  match alookup relCls reg with
  | none => .ok ⟨[], []⟩
  | some relationships =>
    if relationships.isEmpty then .ok ⟨[], []⟩
    else if restParts ≠ [] then
      loadNestedRel reg db relatedModels first restParts relationships
    else
      match alookup first relationships with
      | none => .error ("Relationship '" ++ first ++ "' not found in " ++ relCls ++ " relationships")
      | some rd =>
        let out := relEagerLoadFor db rd relatedModels
        .ok ⟨out.queries, out.warns⟩
termination_by (restParts.length, 1)
end

/-- `QueryBuilder.loadRelationships`: nothing to do on an empty model set
or an absent/empty relationships table; dotted names go through the
nested loader (unknown first segment throws); single-segment names
missing from the table are silently skipped ("they might be handled by
afterEagerLoad"); known ones eager-load.  Errors are surfaced to the
caller like a thrown exception. -/
def loadRelationships (reg : Registry) (db : DB) (cls : String) (names : List String)
    (models : List MRec) : Except String EagerAcc :=
  if models = [] then .ok ⟨[], []⟩
  else
    match alookup cls reg with
    | none => .ok ⟨[], []⟩
    | some relationships =>
      if relationships.isEmpty then .ok ⟨[], []⟩
      else
        names.foldlM (fun acc name =>
          if name.data.contains '.' then
            match (splitOnChar '.' name.data).map String.mk with
            | [] => .ok acc
            | first :: rest =>
              (loadNestedRel reg db models first rest relationships).map
                (fun a => EagerAcc.app acc a)
          else
            match alookup name relationships with
            | none => .ok acc
            | some rd =>
              let out := relEagerLoadFor db rd models
              .ok (EagerAcc.app acc ⟨out.queries, out.warns⟩)) ⟨[], []⟩

/-! # Theorems -/

/-! ## Association-list basics -/

theorem nodupKeys_iff {κ α : Type} [DecidableEq κ] (l : List (κ × α)) :
    nodupKeys l = true ↔ (l.map Prod.fst).Nodup := by
  induction l with
  | nil => simp [nodupKeys]
  | cons hd tl ih =>
    rcases hd with ⟨k, v⟩
    simp [nodupKeys, ih, List.nodup_cons]

theorem alookup_aset_self {κ α : Type} [DecidableEq κ] (k : κ) (v : α)
    (l : List (κ × α)) : alookup k (aset k v l) = some v := by
  induction l with
  | nil => simp [aset, alookup]
  | cons hd tl ih =>
    by_cases h : hd.1 = k
    · simp [aset, h, alookup]
    · simpa [aset, h, alookup] using ih

theorem alookup_aset_ne {κ α : Type} [DecidableEq κ] {k k' : κ} (v : α)
    (l : List (κ × α)) (h : k' ≠ k) : alookup k' (aset k v l) = alookup k' l := by
  induction l with
  | nil => simp [aset, alookup, Ne.symm h]
  | cons hd tl ih =>
    by_cases hh : hd.1 = k
    · simp [aset, hh, alookup, Ne.symm h]
    · simp only [aset, hh, if_false, alookup]
      by_cases hk' : hd.1 = k'
      · simp [hk']
      · simp [hk', ih]

theorem alookup_adelete_ne {κ α : Type} [DecidableEq κ] {k k' : κ}
    (l : List (κ × α)) (h : k' ≠ k) : alookup k' (adelete k l) = alookup k' l := by
  induction l with
  | nil => simp [adelete]
  | cons hd tl ih =>
    by_cases hh : hd.1 = k
    · simp [adelete, hh, alookup, Ne.symm h]
    · simp only [adelete, hh, if_false, alookup]
      by_cases hk' : hd.1 = k'
      · simp [hk']
      · simp [hk', ih]

theorem alookup_eq_none_iff {κ α : Type} [DecidableEq κ] (k : κ) (l : List (κ × α)) :
    alookup k l = none ↔ k ∉ l.map Prod.fst := by
  induction l with
  | nil => simp [alookup]
  | cons hd tl ih =>
    by_cases h : hd.1 = k
    · simp [alookup, h]
    · simp [alookup, h, ih, Ne.symm h]

theorem alookup_adelete_self {κ α : Type} [DecidableEq κ] (k : κ)
    (l : List (κ × α)) (h : nodupKeys l = true) : alookup k (adelete k l) = none := by
  rw [nodupKeys_iff] at h
  induction l with
  | nil => simp [adelete, alookup]
  | cons hd tl ih =>
    rcases hd with ⟨k0, v0⟩
    simp only [List.map_cons, List.nodup_cons] at h
    by_cases hh : k0 = k
    · subst hh
      simp only [adelete, if_pos rfl]
      exact (alookup_eq_none_iff _ _).mpr h.1
    · simp only [adelete, if_neg hh, alookup, if_neg hh]
      exact ih h.2

theorem alookup_mem {κ α : Type} [DecidableEq κ] {k : κ} {v : α} {l : List (κ × α)}
    (h : alookup k l = some v) : (k, v) ∈ l := by
  induction l with
  | nil => simp [alookup] at h
  | cons hd tl ih =>
    rcases hd with ⟨k0, v0⟩
    by_cases hh : k0 = k
    · rw [alookup, if_pos hh] at h
      injection h with h'
      subst h'
      subst hh
      exact List.mem_cons_self _ _
    · rw [alookup, if_neg hh] at h
      exact List.mem_cons_of_mem _ (ih h)

theorem alookup_self_of_nodup {κ α : Type} [DecidableEq κ] {l : List (κ × α)}
    (h : nodupKeys l = true) : ∀ kv ∈ l, alookup kv.1 l = some kv.2 := by
  rw [nodupKeys_iff] at h
  induction l with
  | nil => simp
  | cons hd tl ih =>
    rcases hd with ⟨k0, v0⟩
    simp only [List.map_cons, List.nodup_cons] at h
    intro kv hkv
    rcases List.mem_cons.mp hkv with h1 | h1
    · subst h1
      simp [alookup]
    · have hne : k0 ≠ kv.1 := by
        intro he
        exact h.1 (he ▸ List.mem_map_of_mem Prod.fst h1)
      simp only [alookup, if_neg hne]
      exact ih h.2 kv h1

theorem map_fst_aset {κ α : Type} [DecidableEq κ] (k : κ) (v : α) (l : List (κ × α)) :
    (aset k v l).map Prod.fst =
      if k ∈ l.map Prod.fst then l.map Prod.fst else l.map Prod.fst ++ [k] := by
  induction l with
  | nil => simp [aset]
  | cons hd tl ih =>
    by_cases h2 : hd.1 = k
    · simp [aset, h2]
    · simp only [aset, if_neg h2, List.map_cons, ih]
      by_cases hm : k ∈ tl.map Prod.fst
      · simp [hm, Ne.symm h2]
      · simp [hm, Ne.symm h2]

theorem nodupKeys_aset {κ α : Type} [DecidableEq κ] (k : κ) (v : α) (l : List (κ × α))
    (h : nodupKeys l = true) : nodupKeys (aset k v l) = true := by
  rw [nodupKeys_iff] at h ⊢
  rw [map_fst_aset]
  by_cases hm : k ∈ l.map Prod.fst
  · simpa [hm] using h
  · simp [hm, List.nodup_append, h]

/-! ## C3: transaction boundaries -/

/-- **C3**: `transaction(callback)` is a pure passthrough when the
adapter already reports an open transaction (no begin/commit/rollback of
its own, errors rethrown); nesting `transaction` inside `transaction` is
therefore observationally the same as the outermost call alone; and an
outermost call (no open transaction) issues exactly one `BEGIN` followed
by the callback's own events and exactly one `COMMIT` on normal return or
one `ROLLBACK` on error, returning the callback's outcome unchanged. -/
theorem transactionRun_open {E A : Type} (f : TxState → TxState × Except E A)
    (t : TxState) (ht : t.inTx = true) : transactionRun f t = f t := by
  unfold transactionRun
  rw [ht]
  simp only [Bool.not_true, Bool.false_eq_true, if_false]
  rcases h : f t with ⟨t2, r⟩
  cases r <;> simp

theorem transactionRun_closed {E A : Type} (f : TxState → TxState × Except E A)
    (t : TxState) (ht : t.inTx = false) :
    transactionRun f t =
      (match f (beginTransaction t) with
       | (s2, Except.ok a) => (commitTransaction s2, Except.ok a)
       | (s2, Except.error e) => (rollbackTransaction s2, Except.error e)) := by
  unfold transactionRun
  rw [ht]
  simp only [Bool.not_false, if_true]

theorem C3_transaction_boundaries {E A : Type} (cb : TxState → TxState × Except E A)
    (s : TxState) (L : List TxEvent) :
    (s.inTx = true → transactionRun cb s = cb s) ∧
    (transactionRun (fun t => transactionRun cb t) s = transactionRun cb s) ∧
    (s.inTx = false →
      (cb (beginTransaction s)).1.events = s.events ++ [TxEvent.beginTx] ++ L →
      (transactionRun cb s).2 = (cb (beginTransaction s)).2 ∧
      (transactionRun cb s).1.events = s.events ++ [TxEvent.beginTx] ++ L ++
        [match (cb (beginTransaction s)).2 with
         | .ok _ => TxEvent.commitTx
         | .error _ => TxEvent.rollbackTx]) := by
  refine ⟨transactionRun_open cb s, ?_, ?_⟩
  · by_cases hs : s.inTx = true
    · rw [transactionRun_open _ s hs]
    · have hs' : s.inTx = false := by simpa using hs
      rw [transactionRun_closed (fun t => transactionRun cb t) s hs',
        transactionRun_closed cb s hs', transactionRun_open cb (beginTransaction s) rfl]
  · intro hs hev
    rw [transactionRun_closed cb s hs]
    rcases h : cb (beginTransaction s) with ⟨t2, r⟩
    have ht2 : t2.events = s.events ++ [TxEvent.beginTx] ++ L := by
      rw [h] at hev
      exact hev
    cases r with
    | ok a => simp [commitTransaction, ht2]
    | error e => simp [rollbackTransaction, ht2]

/-- Witness for `C3_transaction_boundaries` at a concrete callback and
state. -/
theorem C3_transaction_boundaries_witness :
    ((⟨false, []⟩ : TxState).inTx = false) ∧
    (((fun t => (t, Except.ok 0)) : TxState → TxState × Except Unit Nat)
        (beginTransaction ⟨false, []⟩)).1.events
      = (⟨false, []⟩ : TxState).events ++ [TxEvent.beginTx] ++ [] ∧
    (transactionRun ((fun t => (t, Except.ok 0)) : TxState → TxState × Except Unit Nat)
        (⟨false, []⟩ : TxState)).1.events
      = (⟨false, []⟩ : TxState).events ++ [TxEvent.beginTx] ++ [] ++ [TxEvent.commitTx] := by
  refine ⟨rfl, by simp [beginTransaction], ?_⟩
  have h := C3_transaction_boundaries
    ((fun t => (t, Except.ok 0)) : TxState → TxState × Except Unit Nat)
    (⟨false, []⟩ : TxState) []
  exact (h.2.2 rfl (by simp [beginTransaction])).2

/-! ## C4: write queue ordering -/

theorem queueWrite_enabled {W E A : Type} (q : QueueState W) (op : W → W × Except E A) :
    queueWrite true q op = ({ chain := fun w => (op (q.chain w)).1 }, fun w => op (q.chain w)) := by
  simp [queueWrite]

theorem submitQueue_cons {W E A : Type} (op : W → W × Except E A)
    (rest : List (W → W × Except E A)) (q : QueueState W) :
    submitQueue (op :: rest) q =
      ((submitQueue rest { chain := fun w => (op (q.chain w)).1 }).1,
       (fun w => op (q.chain w)) :: (submitQueue rest { chain := fun w => (op (q.chain w)).1 }).2) := by
  simp [submitQueue, queueWrite]

theorem submitQueue_length {W E A : Type} (ops : List (W → W × Except E A))
    (q : QueueState W) : (submitQueue ops q).2.length = ops.length := by
  induction ops generalizing q with
  | nil => simp [submitQueue]
  | cons op rest ih => simp [submitQueue_cons, ih]

theorem submitQueue_getElem {W E A : Type} (ops : List (W → W × Except E A))
    (q : QueueState W) (i : Nat) :
    (submitQueue ops q).2[i]?
      = (ops[i]?).map (fun op => fun w => op (runEffects (ops.take i) (q.chain w))) := by
  induction ops generalizing q i with
  | nil => simp [submitQueue]
  | cons op rest ih =>
    cases i with
    | zero => simp [submitQueue_cons, runEffects]
    | succ j =>
      rw [submitQueue_cons]
      simp only [List.getElem?_cons_succ]
      rw [ih { chain := fun w => (op (q.chain w)).1 } j]
      simp [runEffects]

theorem submitQueue_chain {W E A : Type} (ops : List (W → W × Except E A))
    (q : QueueState W) (w : W) :
    (submitQueue ops q).1.chain w = runEffects ops (q.chain w) := by
  induction ops generalizing q with
  | nil => simp [submitQueue, runEffects]
  | cons op rest ih =>
    simp only [submitQueue_cons]
    rw [ih]
    simp [runEffects]

/-- **C4**: with the write queue enabled, submitting `ops` in order makes
the i-th caller's settled outcome exactly its own operation applied to
the world produced by running all previously queued operations to
settlement (their state effects are kept whether their results were `ok`
or `error`, so an earlier failure never blocks a later operation), and
the queue chain itself settles to the world after every submitted
operation; with the queue disabled, `queueWrite` hands the operation back
to run immediately. -/
theorem C4_write_queue {W E A : Type} (ops : List (W → W × Except E A)) (w0 : W) :
    ((submitQueue ops QueueState.initial).2.length = ops.length) ∧
    (∀ i (op : W → W × Except E A), ops[i]? = some op →
      ∃ f, (submitQueue ops QueueState.initial).2[i]? = some f ∧
        f w0 = op (runEffects (ops.take i) w0)) ∧
    ((submitQueue ops QueueState.initial).1.chain w0 = runEffects ops w0) ∧
    (∀ (q : QueueState W) (op : W → W × Except E A), queueWrite false q op = (q, op)) := by
  refine ⟨submitQueue_length ops _, ?_, ?_, ?_⟩
  · intro i op hop
    refine ⟨fun w => op (runEffects (ops.take i) w), ?_, rfl⟩
    rw [submitQueue_getElem, hop]
    rfl
  · exact submitQueue_chain ops QueueState.initial w0
  · intro q op
    simp [queueWrite]

/-- Witness for `C4_write_queue`: two queued operations, the first of
which fails; the second still runs on the world the first produced. -/
theorem C4_write_queue_witness :
    (([fun w => (w + 1, Except.error ()), fun w => (w + 10, Except.ok w)]
        : List (Nat → Nat × Except Unit Nat))[1]? = some (fun w => (w + 10, Except.ok w))) ∧
    (∃ f, (submitQueue
        ([fun w => (w + 1, Except.error ()), fun w => (w + 10, Except.ok w)]
          : List (Nat → Nat × Except Unit Nat)) QueueState.initial).2[1]? = some f ∧
      f 0 = (fun w => (w + 10, Except.ok w))
        (runEffects (([fun w => (w + 1, Except.error ()), fun w => (w + 10, Except.ok w)]
          : List (Nat → Nat × Except Unit Nat)).take 1) 0)) := by
  refine ⟨rfl, ?_⟩
  have h := C4_write_queue (W := Nat) (E := Unit) (A := Nat)
    [fun w => (w + 1, Except.error ()), fun w => (w + 10, Except.ok w)] 0
  exact h.2.1 1 (fun w => (w + 10, Except.ok w)) rfl

/-! ## C10: update with an empty dirty set is a no-op -/

/-- **C10**: calling `update()` on an existing record whose dirty set is
empty returns the record itself with no statement executed, no timestamp
touched, and the result cache untouched — the model state and the whole
ORM world are returned unchanged. -/
theorem C10_clean_update_noop (cfg : ModelCfg) (ts : Option TsConfig) (now : String)
    (m : MRec) (w : WWorld) (hex : m.existsF = true) (hd : getDirty m = []) :
    updateRecord cfg ts now m w = .ok (m, w) := by
  unfold updateRecord
  rw [hex, hd]
  simp

/-! ## C8: placeholder markers match bound values -/

theorem countQ_append (a b : String) : countQ (a ++ b) = countQ a + countQ b := by
  simp [countQ, String.data_append, List.count_append]

theorem countQ_joinSep (sep : String) (hsep : countQ sep = 0) (l : List String) :
    countQ (joinSep sep l) = (l.map countQ).sum := by
  induction l with
  | nil => rfl
  | cons x xs ih =>
    cases xs with
    | nil => simp [joinSep]
    | cons y ys =>
      show countQ (x ++ sep ++ joinSep sep (y :: ys)) = _
      rw [countQ_append, countQ_append, hsep, ih]
      simp

theorem countQ_concatAll (l : List String) : countQ (concatAll l) = (l.map countQ).sum := by
  induction l with
  | nil => rfl
  | cons x xs ih =>
    show countQ (x ++ concatAll xs) = _
    rw [countQ_append, ih]
    simp

theorem countQ_escQuote (s : String) : countQ (escQuote s) = countQ s := by
  rw [escQuote]
  simp only [countQ_append]
  have h : ∀ l : List Char,
      (l.foldr (fun c acc => if c = '"' then '"' :: '"' :: acc else c :: acc) []).count '?'
        = l.count '?' := by
    intro l
    induction l with
    | nil => rfl
    | cons c cs ih =>
      by_cases hc : c = '"'
      · subst hc
        simp [List.count_cons, ih]
      · simp [hc, List.count_cons, ih]
  have h2 : countQ (String.mk
      (s.data.foldr (fun c acc => if c = '"' then '"' :: '"' :: acc else c :: acc) [])) =
      (s.data.foldr (fun c acc => if c = '"' then '"' :: '"' :: acc else c :: acc) []).count '?' := rfl
  rw [h2, h s.data]
  have e1 : countQ "\"" = 0 := rfl
  rw [e1]
  show 0 + s.data.count '?' + 0 = countQ s
  simp [countQ]

theorem splitOnChar_ne_nil (sep : Char) (l : List Char) : splitOnChar sep l ≠ [] := by
  cases l with
  | nil => simp [splitOnChar]
  | cons c rest =>
    rw [splitOnChar]
    by_cases hc : c = sep
    · simp [hc]
    · simp only [hc, if_false]
      rcases h : splitOnChar sep rest with _ | ⟨p, ps⟩ <;> simp

theorem splitOnChar_count (sep ch : Char) (hne : ch ≠ sep) (l : List Char) :
    ((splitOnChar sep l).map (fun p => p.count ch)).sum = l.count ch := by
  induction l with
  | nil => rfl
  | cons c rest ih =>
    rw [splitOnChar]
    by_cases hc : c = sep
    · subst hc
      simp [List.count_cons, Ne.symm hne, ih]
    · simp only [hc, if_false]
      rcases h : splitOnChar sep rest with _ | ⟨p, ps⟩
      · exact absurd h (splitOnChar_ne_nil sep rest)
      · rw [h] at ih
        simp only [List.map_cons, List.sum_cons] at ih ⊢
        simp [List.count_cons, ← ih]
        ring

theorem countQ_escapeIdentifier (s : String) : countQ (escapeIdentifier s) = countQ s := by
  rw [escapeIdentifier]
  by_cases h : s.data.contains '.'
  · rw [if_pos h, countQ_joinSep "." rfl]
    have : ((splitOnChar '.' s.data).map (fun part => escQuote (String.mk part))).map countQ
        = (splitOnChar '.' s.data).map (fun p => p.count '?') := by
      rw [List.map_map]
      apply List.map_congr_left
      intro p _
      show countQ (escQuote (String.mk p)) = p.count '?'
      rw [countQ_escQuote]
      rfl
    rw [this, splitOnChar_count '.' '?' (by decide) s.data]
    rfl
  · rw [if_neg h, countQ_escQuote]

theorem countQ_marks {α : Type} (vals : List α) :
    countQ (joinComma (vals.map fun _ => "?")) = vals.length := by
  rw [joinComma, countQ_joinSep ", " rfl, List.map_map]
  have h : (vals.map (countQ ∘ fun _ => "?")) = vals.map (fun _ => 1) := by
    apply List.map_congr_left
    intro a _
    rfl
  rw [h]
  have hsum : ∀ (l : List α), (l.map fun _ => (1 : Nat)).sum = l.length := by
    intro l
    induction l with
    | nil => rfl
    | cons a as ih =>
      simp only [List.map_cons, List.sum_cons, List.length_cons, ih]
      omega
  exact hsum vals

theorem countQ_opStr (op : WhereOp) : countQ op.str = 0 := by
  cases op <;> rfl

theorem countQ_whereClause (w : WhereCond)
    (hr : ∀ sql b, w = WhereCond.raw sql b → countQ sql = b.length)
    (hb : ∀ col op v, w = WhereCond.basic col op v → countQ col = 0) :
    countQ (whereClauseStr w) = (whereBindings w).length := by
  cases w with
  | raw sql b =>
    have h := hr sql b rfl
    rw [whereClauseStr, whereBindings]
    simp only [countQ_append]
    rw [h]
    have e1 : countQ "(" = 0 := rfl
    have e2 : countQ ")" = 0 := rfl
    rw [e1, e2]
    omega
  | basic col op v =>
    have hcol := hb col op v rfl
    by_cases hin : op = WhereOp.inOp ∨ op = WhereOp.notIn
    · rw [whereClauseStr, whereBindings, if_pos hin, if_pos hin]
      simp only [countQ_append]
      rw [hcol, countQ_opStr, countQ_marks]
      have e1 : countQ " " = 0 := rfl
      have e2 : countQ " (" = 0 := rfl
      have e3 : countQ ")" = 0 := rfl
      rw [e1, e2, e3]
      omega
    · by_cases his : op = WhereOp.isOp ∨ op = WhereOp.isNot
      · rw [whereClauseStr, whereBindings, if_neg hin, if_neg hin, if_pos his, if_pos his]
        simp only [countQ_append]
        rw [hcol, countQ_opStr]
        have e1 : countQ " " = 0 := rfl
        have e2 : countQ " NULL" = 0 := rfl
        rw [e1, e2]
        rfl
      · rw [whereClauseStr, whereBindings, if_neg hin, if_neg hin, if_neg his, if_neg his]
        simp only [countQ_append]
        rw [hcol, countQ_opStr]
        have e1 : countQ " " = 0 := rfl
        have e2 : countQ " ?" = 1 := rfl
        rw [e1, e2]
        rfl

theorem countQ_dirUpper (d : Dir) : countQ d.upper = 0 := by
  cases d <;> rfl

theorem countQ_orderItem (o : OrderClause) (h : countQ o.column = 0) :
    countQ (orderItem o) = 0 := by
  rw [orderItem]
  by_cases hd : o.direction = Dir.raw
  · rw [if_pos hd]; exact h
  · rw [if_neg hd, countQ_append, countQ_append, countQ_escapeIdentifier, h,
      countQ_dirUpper]
    rfl

theorem countQ_selectClause (q : QueryStructure)
    (hcols : ∀ c ∈ q.columns, countQ c = 0)
    (hsel : ∀ s, q.selectRaw = some s → countQ s = 0) :
    countQ (selectClause q) = 0 := by
  have hjoin : countQ (joinComma q.columns) = 0 := by
    rw [joinComma, countQ_joinSep ", " rfl]
    have : q.columns.map countQ = q.columns.map (fun _ => 0) :=
      List.map_congr_left (fun c hc => hcols c hc)
    rw [this]
    simp
  rw [selectClause]
  cases hs : q.selectRaw with
  | none =>
    by_cases hc : q.columns ≠ []
    · simp only [if_pos hc]; exact hjoin
    · simp only [if_neg hc]; rfl
  | some s =>
    by_cases hse : s ≠ ""
    · simp only [if_pos hse]; exact hsel s hs
    · simp only [if_neg hse]
      by_cases hc : q.columns ≠ []
      · simp only [if_pos hc]; exact hjoin
      · simp only [if_neg hc]; rfl

theorem countQ_joinsClause (q : QueryStructure)
    (hjoins : ∀ j ∈ q.joins, countQ j.table = 0 ∧ countQ j.first = 0 ∧ countQ j.op = 0 ∧
      countQ j.second = 0) : countQ (joinsClause q) = 0 := by
  rw [joinsClause, countQ_concatAll, List.map_map]
  have : q.joins.map (countQ ∘ joinFragment) = q.joins.map (fun _ => 0) := by
    apply List.map_congr_left
    intro j hj
    obtain ⟨h1, h2, h3, h4⟩ := hjoins j hj
    show countQ (joinFragment j) = 0
    rw [joinFragment]
    rw [countQ_append, countQ_append, countQ_append, countQ_append, countQ_append,
      countQ_append, countQ_append, countQ_append, countQ_append]
    have h5 : countQ j.kind.str = 0 := by cases j.kind <;> rfl
    rw [h1, h2, h3, h4, h5]
    rfl
  rw [this]
  simp

theorem countQ_ordersClause (q : QueryStructure)
    (horders : ∀ o ∈ q.orders, countQ o.column = 0) :
    countQ (ordersClause q) = 0 := by
  rw [ordersClause]
  by_cases ho : q.orders = []
  · rw [if_pos ho]; rfl
  · rw [if_neg ho, countQ_append, joinComma, countQ_joinSep ", " rfl, List.map_map]
    have h2 : q.orders.map (countQ ∘ orderItem) = q.orders.map (fun _ => 0) :=
      List.map_congr_left (fun o hoo => countQ_orderItem o (horders o hoo))
    rw [h2]
    have e1 : countQ " ORDER BY " = 0 := rfl
    rw [e1]
    simp

/-- **C8** (amended): provided the raw WHERE fragments each carry exactly
as many bindings as `?` markers in their text, *and* the remaining
statement text the compiler copies verbatim — table name, projection,
join fragments, basic columns, and order fragments — contains no `?`
marker of its own, the compiled select statement has exactly as many
placeholder markers as bound values; the bound values are exactly the
conditions' bindings in declaration order followed by LIMIT and OFFSET;
and every IN/NOT IN condition expands to one placeholder per element of
its value set with the elements appended to the bindings in input
order. -/
theorem C8_placeholder_invariant (q : QueryStructure)
    (hraw : ∀ w ∈ q.wheres, ∀ sql b, w = WhereCond.raw sql b → countQ sql = b.length)
    (htable : countQ q.table = 0)
    (hcols : ∀ c ∈ q.columns, countQ c = 0)
    (hsel : ∀ s, q.selectRaw = some s → countQ s = 0)
    (hjoins : ∀ j ∈ q.joins, countQ j.table = 0 ∧ countQ j.first = 0 ∧ countQ j.op = 0 ∧
      countQ j.second = 0)
    (hbasic : ∀ w ∈ q.wheres, ∀ col op v, w = WhereCond.basic col op v → countQ col = 0)
    (horders : ∀ o ∈ q.orders, countQ o.column = 0) :
    countQ (compileSelect q).sql = (compileSelect q).bindings.length ∧
    (compileSelect q).bindings
      = q.wheres.flatMap whereBindings ++ limitBindings q ++ offsetBindings q ∧
    (∀ col (v : WhereVal), whereBindings (WhereCond.basic col WhereOp.inOp v) = v.asList ∧
      countQ (whereClauseStr (WhereCond.basic col WhereOp.inOp v))
        = countQ col + v.asList.length) := by
  refine ⟨?_, rfl, ?_⟩
  · have hw : countQ (wheresClause q) = (q.wheres.flatMap whereBindings).length := by
      rw [wheresClause]
      by_cases hq : q.wheres = []
      · rw [if_pos hq, hq]; rfl
      · rw [if_neg hq, countQ_append, countQ_joinSep " AND " rfl, List.map_map]
        have h2 : q.wheres.map (countQ ∘ whereClauseStr)
            = q.wheres.map (fun w => (whereBindings w).length) :=
          List.map_congr_left (fun w hw =>
            countQ_whereClause w (hraw w hw) (hbasic w hw))
        rw [h2]
        have h3 : (q.wheres.flatMap whereBindings).length
            = (q.wheres.map (fun w => (whereBindings w).length)).sum := by
          induction q.wheres with
          | nil => rfl
          | cons hd tl ih => simp [ih]
        rw [h3]
        have e1 : countQ " WHERE " = 0 := rfl
        rw [e1]
        omega
    have hlim : countQ (limitClause q) = (limitBindings q).length := by
      cases h : q.limitValue <;> simp [limitClause, limitBindings, h] <;> rfl
    have hoff : countQ (offsetClause q) = (offsetBindings q).length := by
      cases h : q.offsetValue <;> simp [offsetClause, offsetBindings, h] <;> rfl
    show countQ ("SELECT " ++ selectClause q ++ " FROM " ++ q.table ++ joinsClause q
      ++ wheresClause q ++ ordersClause q ++ limitClause q ++ offsetClause q) = _
    simp only [countQ_append]
    rw [countQ_selectClause q hcols hsel, htable, countQ_joinsClause q hjoins,
      countQ_ordersClause q horders, hw, hlim, hoff]
    have e1 : countQ "SELECT " = 0 := rfl
    have e2 : countQ " FROM " = 0 := rfl
    rw [e1, e2]
    simp only [compileSelect, List.length_append]
    omega
  · intro col v
    refine ⟨rfl, ?_⟩
    rw [whereClauseStr, if_pos (Or.inl rfl)]
    simp only [countQ_append]
    rw [countQ_marks]
    have e0 : countQ (WhereOp.str WhereOp.inOp) = 0 := rfl
    have e1 : countQ " " = 0 := rfl
    have e2 : countQ " (" = 0 := rfl
    have e3 : countQ ")" = 0 := rfl
    rw [e0, e1, e2, e3]
    omega

/-- Witness for `C8_placeholder_invariant`: a select with a balanced raw
fragment, an IN condition, an order clause, and a limit. -/
theorem C8_placeholder_invariant_witness :
    countQ (compileSelect
      { table := "users"
        wheres := [WhereCond.raw "age > ?" [QVal.i 18],
                   WhereCond.basic "id" WhereOp.inOp (WhereVal.many [QVal.i 1, QVal.i 2])]
        orders := [⟨"name", Dir.ascLower⟩]
        limitValue := some 10 }).sql
    = (compileSelect
      { table := "users"
        wheres := [WhereCond.raw "age > ?" [QVal.i 18],
                   WhereCond.basic "id" WhereOp.inOp (WhereVal.many [QVal.i 1, QVal.i 2])]
        orders := [⟨"name", Dir.ascLower⟩]
        limitValue := some 10 }).bindings.length := by
  refine (C8_placeholder_invariant _ ?_ (by decide) ?_ ?_ ?_ ?_ ?_).1
  · intro w hw sql b heq
    simp only [List.mem_cons, List.not_mem_nil, or_false] at hw
    rcases hw with hw | hw
    · subst hw; cases heq; decide
    · subst hw; cases heq
  · intro c hc
    simp at hc
  · intro s hs
    cases hs
  · intro j hj
    simp at hj
  · intro w hw col op v heq
    simp only [List.mem_cons, List.not_mem_nil, or_false] at hw
    rcases hw with hw | hw
    · subst hw; cases heq
    · subst hw; cases heq; decide
  · intro o ho
    simp only [List.mem_cons, List.not_mem_nil, or_false] at ho
    subst ho; decide

/-- Counterexample to **C8** as stated: a raw ORDER fragment containing a
`?` (appended verbatim, with no binding slot of its own) breaks the
placeholder/binding balance even though the query has no raw WHERE
fragment at all. -/
theorem C8_counterexample :
    (∀ w ∈ ({ table := "t", wheres := [], orders := [⟨"?", Dir.raw⟩] } : QueryStructure).wheres,
      ∀ sql b, w = WhereCond.raw sql b → countQ sql = b.length) ∧
    countQ (compileSelect
        { table := "t", wheres := [], orders := [⟨"?", Dir.raw⟩] }).sql
      ≠ (compileSelect
        { table := "t", wheres := [], orders := [⟨"?", Dir.raw⟩] }).bindings.length := by
  constructor
  · intro w hw
    simp at hw
  · decide

/-! ## C1: write-driven cache invalidation -/

theorem nodupKeys_adelete {κ α : Type} [DecidableEq κ] (k : κ) (l : List (κ × α))
    (h : nodupKeys l = true) : nodupKeys (adelete k l) = true := by
  rw [nodupKeys_iff] at h ⊢
  have hsub : List.Sublist ((adelete k l).map Prod.fst) (l.map Prod.fst) := by
    clear h
    induction l with
    | nil => simp [adelete]
    | cons hd tl ih =>
      by_cases hh : hd.1 = k
      · simp only [adelete, if_pos hh, List.map_cons]
        exact List.sublist_cons_self _ _
      · simp only [adelete, if_neg hh, List.map_cons]
        exact List.Sublist.cons₂ _ ih
  exact h.sublist hsub

theorem foldl_cache_invariant {f : MemCache → String → MemCache}
    (hf : ∀ m t, (f m t).cache = m.cache) (ts : List String) (m : MemCache) :
    (ts.foldl f m).cache = m.cache := by
  induction ts generalizing m with
  | nil => rfl
  | cons t ts ih => rw [List.foldl_cons, ih, hf]

theorem foldl_rowCache_invariant {f : MemCache → String → MemCache}
    (hf : ∀ m t, (f m t).rowCache = m.rowCache) (ts : List String) (m : MemCache) :
    (ts.foldl f m).rowCache = m.rowCache := by
  induction ts generalizing m with
  | nil => rfl
  | cons t ts ih => rw [List.foldl_cons, ih, hf]

theorem cacheDelete_cache (mc : MemCache) (key : String) (tags : List String) :
    (cacheDelete mc key tags).cache = adelete key mc.cache := by
  unfold cacheDelete
  rw [foldl_cache_invariant]
  intro m t
  cases h : alookup t m.tagMap with
  | none => simp [h]
  | some ks =>
    simp only [h]
    split <;> rfl

theorem cacheDelete_rowCache (mc : MemCache) (key : String) (tags : List String) :
    (cacheDelete mc key tags).rowCache = mc.rowCache := by
  unfold cacheDelete
  rw [foldl_rowCache_invariant]
  intro m t
  cases h : alookup t m.tagMap with
  | none => simp [h]
  | some ks =>
    simp only [h]
    split <;> rfl

theorem invalidate_fold_cache (ks : List String) (mc : MemCache)
    (hnodup : nodupKeys mc.cache = true) :
    (∀ k, alookup k (ks.foldl (fun mc key =>
        match alookup key mc.cache with
        | some e => cacheDelete mc key e.tags
        | none => mc) mc).cache = if k ∈ ks then none else alookup k mc.cache) ∧
    nodupKeys (ks.foldl (fun mc key =>
        match alookup key mc.cache with
        | some e => cacheDelete mc key e.tags
        | none => mc) mc).cache = true ∧
    (ks.foldl (fun mc key =>
        match alookup key mc.cache with
        | some e => cacheDelete mc key e.tags
        | none => mc) mc).rowCache = mc.rowCache := by
  induction ks generalizing mc with
  | nil => exact ⟨fun k => by simp, hnodup, rfl⟩
  | cons key ks ih =>
    rw [List.foldl_cons]
    cases h : alookup key mc.cache with
    | none =>
      simp only
      obtain ⟨ih1, ih2, ih3⟩ := ih mc hnodup
      refine ⟨?_, ih2, ih3⟩
      intro k
      rw [ih1 k]
      by_cases hk : k ∈ ks
      · simp [hk]
      · by_cases hke : k = key
        · subst hke
          simp [hk, h]
        · simp [hk, hke]
    | some e =>
      simp only
      have hc : (cacheDelete mc key e.tags).cache = adelete key mc.cache :=
        cacheDelete_cache mc key e.tags
      have hn : nodupKeys (cacheDelete mc key e.tags).cache = true := by
        rw [hc]; exact nodupKeys_adelete key mc.cache hnodup
      obtain ⟨ih1, ih2, ih3⟩ := ih (cacheDelete mc key e.tags) hn
      refine ⟨?_, ih2, by rw [ih3, cacheDelete_rowCache]⟩
      intro k
      rw [ih1 k, hc]
      by_cases hk : k ∈ ks
      · simp [hk]
      · by_cases hke : k = key
        · subst hke
          simp [hk, alookup_adelete_self k mc.cache hnodup]
        · simp [hk, hke, alookup_adelete_ne mc.cache hke]

theorem wf_parts (mc : MemCache) (hwf : mc.wf = true) :
    nodupKeys mc.cache = true ∧ nodupKeys mc.tagMap = true ∧
    nodupKeys mc.rowCache = true ∧
    ∀ k e, alookup k mc.cache = some e → ∀ tag ∈ e.tags,
      k ∈ (alookup tag mc.tagMap).getD [] := by
  unfold MemCache.wf at hwf
  simp only [Bool.and_eq_true, List.all_eq_true] at hwf
  obtain ⟨⟨⟨h1, h2⟩, h3⟩, h4⟩ := hwf
  refine ⟨h1, h2, h3, ?_⟩
  intro k e hke tag htag
  have hmem := alookup_mem hke
  have := h4 (k, e) hmem
  simp only [List.all_eq_true] at this
  have h5 := this tag htag
  simpa using h5

theorem cacheInvalidate_single_none (mc : MemCache) (T : String)
    (h : alookup T mc.tagMap = none) : cacheInvalidate mc [T] = mc := by
  unfold cacheInvalidate
  simp only [List.foldl_cons, List.foldl_nil]
  rw [h]

theorem cacheInvalidate_single_some (mc : MemCache) (T : String) (keys : List String)
    (h : alookup T mc.tagMap = some keys) :
    cacheInvalidate mc [T] =
      { (keys.foldl (fun mc key =>
            match alookup key mc.cache with
            | some e => cacheDelete mc key e.tags
            | none => mc) mc) with
        tagMap := adelete T (keys.foldl (fun mc key =>
            match alookup key mc.cache with
            | some e => cacheDelete mc key e.tags
            | none => mc) mc).tagMap
        rowCache := adelete T (keys.foldl (fun mc key =>
            match alookup key mc.cache with
            | some e => cacheDelete mc key e.tags
            | none => mc) mc).rowCache } := by
  unfold cacheInvalidate
  simp only [List.foldl_cons, List.foldl_nil]
  rw [h]

/-- The effect of `MemoryResultCache.invalidate([T])` under the
well-formedness invariant: every query-level entry tagged `T` is removed
(no surviving entry carries the tag), and — provided the tag map had an
index entry for `T` — the table's row cache is cleared (the `continue`
on a missing index entry skips the row-cache clear). -/
theorem cacheInvalidate_single (mc : MemCache) (T : String) (hwf : mc.wf = true) :
    (∀ k e, alookup k (cacheInvalidate mc [T]).cache = some e → T ∉ e.tags) ∧
    (∀ k e, alookup k mc.cache = some e → T ∈ e.tags →
      alookup k (cacheInvalidate mc [T]).cache = none) ∧
    (alookup T mc.tagMap ≠ none →
      ∀ id, getRowById (cacheInvalidate mc [T]) T id = none) := by
  obtain ⟨hn1, hn2, hn3, hcov⟩ := wf_parts mc hwf
  cases h : alookup T mc.tagMap with
  | none =>
    rw [cacheInvalidate_single_none mc T h]
    refine ⟨?_, ?_, fun hne => absurd rfl hne⟩
    · intro k e hke htag
      have hc := hcov k e hke T htag
      rw [h] at hc
      simp at hc
    · intro k e hke htag
      have hc := hcov k e hke T htag
      rw [h] at hc
      simp at hc
  | some keys =>
    rw [cacheInvalidate_single_some mc T keys h]
    obtain ⟨hf1, hf2, hf3⟩ := invalidate_fold_cache keys mc hn1
    refine ⟨?_, ?_, ?_⟩
    · intro k e hke htag
      have hke2 : alookup k (keys.foldl (fun mc key =>
          match alookup key mc.cache with
          | some e => cacheDelete mc key e.tags
          | none => mc) mc).cache = some e := hke
      rw [hf1 k] at hke2
      by_cases hk : k ∈ keys
      · rw [if_pos hk] at hke2
        cases hke2
      · rw [if_neg hk] at hke2
        have hc := hcov k e hke2 T htag
        rw [h] at hc
        simp only [Option.getD_some] at hc
        exact hk hc
    · intro k e hke htag
      have hkmem : k ∈ keys := by
        have hc := hcov k e hke T htag
        rw [h] at hc
        simpa using hc
      show alookup k (keys.foldl (fun mc key =>
          match alookup key mc.cache with
          | some e => cacheDelete mc key e.tags
          | none => mc) mc).cache = none
      rw [hf1 k, if_pos hkmem]
    · intro _ id
      show getRowById
        { (keys.foldl (fun mc key =>
              match alookup key mc.cache with
              | some e => cacheDelete mc key e.tags
              | none => mc) mc) with
          tagMap := adelete T (keys.foldl (fun mc key =>
              match alookup key mc.cache with
              | some e => cacheDelete mc key e.tags
              | none => mc) mc).tagMap
          rowCache := adelete T (keys.foldl (fun mc key =>
              match alookup key mc.cache with
              | some e => cacheDelete mc key e.tags
              | none => mc) mc).rowCache } T id = none
      unfold getRowById
      have hrow : alookup T (adelete T (keys.foldl (fun mc key =>
          match alookup key mc.cache with
          | some e => cacheDelete mc key e.tags
          | none => mc) mc).rowCache) = none := by
        rw [hf3]
        exact alookup_adelete_self T mc.rowCache hn3
      rw [hrow]

/-- The non-trivial branch of `updateRecord` as an equation. -/
theorem updateRecord_dirty (cfg : ModelCfg) (ts : Option TsConfig) (now : String)
    (m : MRec) (w : WWorld) (hex : m.existsF = true) (hd : getDirty m ≠ []) :
    updateRecord cfg ts now m w =
      (let data0 := (getDirty m).foldl (fun d f => aset f (attrGet m.attrs f) d) []
       let data := match ts with
         | some t => aset t.updated_at (QVal.s now) data0
         | none => data0
       let attrs := match ts with
         | some t => aset t.updated_at (QVal.s now) m.attrs
         | none => m.attrs
       .ok ({ attrs := attrs, original := attrs, existsF := m.existsF },
         invalidateResultCache
           { w with execLog := w.execLog ++
               [compileUpdate cfg.table data cfg.primaryKey (attrGet attrs cfg.primaryKey)] }
           [cfg.table])) := by
  unfold updateRecord
  rw [hex]
  simp only [Bool.not_true, Bool.false_eq_true, if_false]
  rw [if_neg hd]

theorem invalidateResultCache_cacheAdapter (w : WWorld) (tables : List String)
    (mc : MemCache) (h : w.cacheAdapter = some mc) :
    (invalidateResultCache w tables).cacheAdapter = some (cacheInvalidate mc tables) := by
  unfold invalidateResultCache
  rw [h]

theorem insertRecord_snd (cfg : ModelCfg) (ts : Option TsConfig) (now : String)
    (newId : QVal) (m : MRec) (w : WWorld) :
    (insertRecord cfg ts now newId m w).2 =
      invalidateResultCache
        { w with execLog := w.execLog ++ [compileInsert cfg.table
            (match ts with
             | some t => aset t.updated_at (QVal.s now) (aset t.created_at (QVal.s now) m.attrs)
             | none => m.attrs)] } [cfg.table] := rfl

theorem deleteRecord_eq (cfg : ModelCfg) (m : MRec) (w : WWorld)
    (hex : m.existsF = true) :
    deleteRecord cfg m w = .ok ({ m with existsF := false },
      invalidateResultCache
        { w with execLog := w.execLog ++
            [compileDelete cfg.table cfg.primaryKey (attrGet m.attrs cfg.primaryKey)] }
        [cfg.table]) := by
  unfold deleteRecord
  rw [hex]
  simp

/-- **C1** (amended): a successful insert, a successful delete, and a
successful update whose dirty set is non-empty each invalidate the
written table through `MemoryResultCache.invalidate`; under the tag-map
reachability invariant that invalidation removes every query-cache entry
tagged with the table, and — provided at least one query-cache entry was
indexed under the table's tag at that moment — clears the table's entire
row cache, so a subsequent identical read misses and reaches the
adapter. -/
theorem C1_write_invalidation (mc : MemCache) (T : String) (hwf : mc.wf = true)
    (cfg : ModelCfg) (hT : cfg.table = T) (ts : Option TsConfig) (now : String)
    (newId : QVal) (m : MRec) (w : WWorld) (hca : w.cacheAdapter = some mc) :
    (∀ k e, alookup k (cacheInvalidate mc [T]).cache = some e → T ∉ e.tags) ∧
    (∀ k e, alookup k mc.cache = some e → T ∈ e.tags →
      alookup k (cacheInvalidate mc [T]).cache = none) ∧
    (alookup T mc.tagMap ≠ none →
      ∀ id, getRowById (cacheInvalidate mc [T]) T id = none) ∧
    ((insertRecord cfg ts now newId m w).2.cacheAdapter
      = some (cacheInvalidate mc [T])) ∧
    (m.existsF = true → getDirty m ≠ [] →
      ∃ m' w', updateRecord cfg ts now m w = .ok (m', w') ∧
        w'.cacheAdapter = some (cacheInvalidate mc [T])) ∧
    (m.existsF = true →
      ∃ m' w', deleteRecord cfg m w = .ok (m', w') ∧
        w'.cacheAdapter = some (cacheInvalidate mc [T])) := by
  obtain ⟨h1, h2, h3⟩ := cacheInvalidate_single mc T hwf
  subst hT
  refine ⟨h1, h2, h3, ?_, ?_, ?_⟩
  · rw [insertRecord_snd]
    exact invalidateResultCache_cacheAdapter _ _ mc hca
  · intro hex hd
    rw [updateRecord_dirty cfg ts now m w hex hd]
    refine ⟨_, _, rfl, ?_⟩
    exact invalidateResultCache_cacheAdapter _ _ mc hca
  · intro hex
    rw [deleteRecord_eq cfg m w hex]
    refine ⟨_, _, rfl, ?_⟩
    exact invalidateResultCache_cacheAdapter _ _ mc hca

/-- Counterexample to **C1** as stated: an `update()` on a record whose
dirty set is empty completes successfully but invalidates nothing, so a
query-cache entry tagged with the record's table survives the write. -/
theorem C1_counterexample :
    updateRecord ⟨"users", "id"⟩ none "2024" (hydrate [("id", QVal.i 1)])
        ⟨some { cache := [("k", { value := [], tags := ["users"], expiresAt := none,
                                  lastUsed := 0 })],
                tagMap := [("users", ["k"])], rowCache := [],
                maxSize := 200, defaultTTL := none }, []⟩
      = .ok (hydrate [("id", QVal.i 1)],
        ⟨some { cache := [("k", { value := [], tags := ["users"], expiresAt := none,
                                  lastUsed := 0 })],
                tagMap := [("users", ["k"])], rowCache := [],
                maxSize := 200, defaultTTL := none }, []⟩) ∧
    alookup "k" ({ cache := [("k", { value := [], tags := ["users"], expiresAt := none,
                                     lastUsed := 0 })],
                   tagMap := [("users", ["k"])], rowCache := [],
                   maxSize := 200, defaultTTL := none } : MemCache).cache
      = some { value := [], tags := ["users"], expiresAt := none, lastUsed := 0 } ∧
    "users" ∈ ({ value := [], tags := ["users"], expiresAt := none,
                 lastUsed := 0 } : CEntry).tags := by
  exact ⟨rfl, by decide, by decide⟩

/-- Witness for `C1_write_invalidation` on a concrete well-formed cache
with a tagged entry and a cached row. -/
theorem C1_write_invalidation_witness :
    ({ cache := [("k", { value := [], tags := ["users"], expiresAt := none, lastUsed := 0 })],
       tagMap := [("users", ["k"])],
       rowCache := [("users", [(QVal.i 1, [("id", QVal.i 1)])])],
       maxSize := 200, defaultTTL := none } : MemCache).wf = true ∧
    (∀ k e, alookup k (cacheInvalidate
        { cache := [("k", { value := [], tags := ["users"], expiresAt := none, lastUsed := 0 })],
          tagMap := [("users", ["k"])],
          rowCache := [("users", [(QVal.i 1, [("id", QVal.i 1)])])],
          maxSize := 200, defaultTTL := none } ["users"]).cache = some e →
      "users" ∉ e.tags) := by
  refine ⟨by decide, ?_⟩
  exact (C1_write_invalidation
    { cache := [("k", { value := [], tags := ["users"], expiresAt := none, lastUsed := 0 })],
      tagMap := [("users", ["k"])],
      rowCache := [("users", [(QVal.i 1, [("id", QVal.i 1)])])],
      maxSize := 200, defaultTTL := none } "users" (by decide) ⟨"users", "id"⟩ rfl
    none "2024" (QVal.i 2) (hydrate []) ⟨some
      { cache := [("k", { value := [], tags := ["users"], expiresAt := none, lastUsed := 0 })],
        tagMap := [("users", ["k"])],
        rowCache := [("users", [(QVal.i 1, [("id", QVal.i 1)])])],
        maxSize := 200, defaultTTL := none }, []⟩ rfl).1

/-! ## C6: unknown relationship names -/

/-- **C6** (amended): loading with an empty root model set succeeds with
nothing to do, and likewise when the model class has no relationships
table or an empty one; a *top-level single-segment* name absent from the
model's relationship table is silently skipped rather than throwing; a
*dotted* path whose first segment is unknown throws an error naming that
segment; a dotted path whose remainder is a single empty segment (a
trailing dot, `posts.`) loads the first level and then silently stops,
because the recursion guard tests the truthiness of the re-joined
remaining path; an unknown non-empty final segment at the next tier
(reached through a non-empty related set and a non-empty relationship
table) throws an error naming the segment and the related class; the
polymorphic variant maps an unmapped truthy discriminator to a `null`
assignment plus a `console.warn` diagnostic instead of throwing. -/
theorem C6_unknown_relationships (reg : Registry) (db : DB) (cls : String)
    (names : List String) (models : List MRec) (rels : List (String × RelDesc))
    (name first : String) (restParts : List String) (rd : RelDesc)
    (relCls r1 : String) (rels2 : List (String × RelDesc))
    (discField fkField : String) (morphMap : List (String × MorphTarget))
    (m : MRec) (dv : QVal) :
    (loadRelationships reg db cls names [] = .ok ⟨[], []⟩) ∧
    (alookup cls reg = none →
      loadRelationships reg db cls names models = .ok ⟨[], []⟩) ∧
    (alookup cls reg = some rels → rels.isEmpty = true →
      loadRelationships reg db cls names models = .ok ⟨[], []⟩) ∧
    (models ≠ [] → alookup cls reg = some rels → rels.isEmpty = false →
      name.data.contains '.' = false → alookup name rels = none →
      loadRelationships reg db cls [name] models = .ok ⟨[], []⟩) ∧
    (models ≠ [] → alookup cls reg = some rels → rels.isEmpty = false →
      name.data.contains '.' = true →
      (splitOnChar '.' name.data).map String.mk = first :: restParts →
      alookup first rels = none →
      loadRelationships reg db cls [name] models
        = .error ("Relationship '" ++ first ++ "' not found in static relationships constant")) ∧
    (alookup first rels = some rd →
      loadNestedRel reg db models first [""] rels
        = .ok ⟨(relEagerLoadFor db rd models).queries, (relEagerLoadFor db rd models).warns⟩) ∧
    (r1 ≠ "" → alookup first rels = some rd →
      extractRelated (relEagerLoadFor db rd models).writes ≠ [] →
      relGetRelated rd = some relCls →
      alookup relCls reg = some rels2 → rels2.isEmpty = false →
      alookup r1 rels2 = none →
      loadNestedRel reg db models first [r1] rels
        = .error ("Relationship '" ++ r1 ++ "' not found in " ++ relCls ++ " relationships")) ∧
    (attrGet m.attrs discField = dv → qvTruthy dv = true →
      alookup (qvalPropKey dv) morphMap = none →
      morphToEagerLoadFor db discField fkField morphMap [m]
        = { writes := [(WriteKind.privateSlot, RelVal.rnull)], queries := [],
            warns := ["No model mapped for discriminator value: " ++ qvalPropKey dv] }) := by
  refine ⟨rfl, ?_, ?_, ?_, ?_, ?_, ?_, ?_⟩
  · intro hcls
    unfold loadRelationships
    by_cases hm : models = []
    · rw [if_pos hm]
    · rw [if_neg hm, hcls]
  · intro hcls hrels
    unfold loadRelationships
    by_cases hm : models = []
    · rw [if_pos hm]
    · rw [if_neg hm, hcls]
      simp [hrels]
  · intro hne hcls hrels hdot hname
    unfold loadRelationships
    rw [if_neg hne, hcls]
    simp only [hrels, Bool.false_eq_true, if_false, List.foldlM_cons, List.foldlM_nil,
      hdot, hname]
    rfl
  · intro hne hcls hrels hdot hsplit hfirst
    unfold loadRelationships
    rw [if_neg hne, hcls]
    simp only [hrels, Bool.false_eq_true, if_false, List.foldlM_cons, List.foldlM_nil,
      hdot, hsplit]
    unfold loadNestedRel
    rw [hfirst]
    rfl
  · intro hfirst
    unfold loadNestedRel
    rw [hfirst]
    rfl
  · intro hr1ne hfirst hvalid hrel hcls2 hrels2 hr1
    unfold loadNestedRel
    rw [hfirst]
    simp only
    rw [if_neg (show ¬(joinSep "." [r1] = "") from fun h => hr1ne h)]
    rw [if_neg hvalid, hrel]
    dsimp only
    unfold loadNestedOnRelated
    rw [hcls2]
    simp [hrels2, hr1]
  · intro hdv htruthy hmap
    unfold morphToEagerLoadFor
    simp only [List.enum, List.enumFrom, List.foldl_cons, List.foldl_nil]
    rw [hdv, htruthy]
    simp only [Bool.not_true, Bool.false_eq_true, if_false]
    simp only [aset, alookup, List.foldl_cons, List.foldl_nil, Option.getD_none,
      List.nil_append, hmap]
    rfl

/-- Counterexample to **C6** as stated: a top-level relationship name
absent from the model's (non-empty) relationship table, with a non-empty
parent set, does not throw — `loadRelationships` silently skips it. -/
theorem C6_counterexample :
    ([hydrate [("id", QVal.i 1)]] : List MRec) ≠ [] ∧
    alookup "bogus" [("posts", RelDesc.hasManyR "Post" "posts" "user_id" "id")] = none ∧
    loadRelationships [("User", [("posts", RelDesc.hasManyR "Post" "posts" "user_id" "id")])]
        (fun _ _ => []) "User" ["bogus"] [hydrate [("id", QVal.i 1)]]
      = .ok ⟨[], []⟩ := by
  refine ⟨by simp, rfl, rfl⟩

/-- Witness for `C6_unknown_relationships` on a concrete registry. -/
theorem C6_unknown_relationships_witness :
    loadRelationships [("User", [("posts", RelDesc.hasManyR "Post" "posts" "user_id" "id")])]
        (fun _ _ => []) "User" ["bogus.comments"] [hydrate [("id", QVal.i 1)]]
      = .error "Relationship 'bogus' not found in static relationships constant" := by
  have h := C6_unknown_relationships
    [("User", [("posts", RelDesc.hasManyR "Post" "posts" "user_id" "id")])]
    (fun _ _ => []) "User" ["bogus.comments"] [hydrate [("id", QVal.i 1)]]
    [("posts", RelDesc.hasManyR "Post" "posts" "user_id" "id")]
    "bogus.comments" "bogus" ["comments"] (RelDesc.hasManyR "Post" "posts" "user_id" "id")
    "Post" "c" [] "t" "f" [] (hydrate []) QVal.null
  exact h.2.2.2.2.1 (by simp) rfl rfl rfl rfl rfl

/-! ## C2: batched eager loading -/

theorem filterMap_if_eq_filter {α : Type} (p : α → Prop) [DecidablePred p] (l : List α) :
    l.filterMap (fun x => if p x then some x else none) = l.filter (fun x => decide (p x)) := by
  induction l with
  | nil => rfl
  | cons x xs ih =>
    by_cases h : p x
    · simp [h, ih]
    · simp [h, ih]

theorem groupFold_lookup {α β κ : Type} [DecidableEq κ] (key : α → κ) (g : α → Option β)
    (l : List α) (acc : List (κ × List β)) (v : κ) :
    alookup v (l.foldl (fun acc x =>
        (g x).elim acc
          (fun r => aset (key x) (((alookup (key x) acc).getD []) ++ [r]) acc)) acc)
      = (match l.filterMap (fun x => if key x = v then g x else none) with
         | [] => alookup v acc
         | y :: ys => some ((alookup v acc).getD [] ++ y :: ys)) := by
  induction l generalizing acc with
  | nil => simp
  | cons x xs ih =>
    rw [List.foldl_cons]
    cases hg : g x with
    | none =>
      simp only [hg, Option.elim_none]
      rw [ih acc]
      have hx : (if key x = v then g x else none) = none := by
        by_cases hk : key x = v <;> simp [hk, hg]
      simp [List.filterMap_cons, hx]
    | some r =>
      simp only [hg, Option.elim_some]
      rw [ih (aset (key x) (((alookup (key x) acc).getD []) ++ [r]) acc)]
      by_cases hk : key x = v
      · subst hk
        rw [alookup_aset_self]
        have hx : (if key x = key x then g x else none) = some r := by simp [hg]
        simp only [List.filterMap_cons, hx]
        cases he : xs.filterMap (fun y => if key y = key x then g y else none) with
        | nil => simp [hg]
        | cons z zs => simp [hg]
      · rw [alookup_aset_ne _ _ (Ne.symm hk)]
        have hx : (if key x = v then g x else none) = none := by simp [hk]
        simp [List.filterMap_cons, hx]

theorem groupFold_getD {α β κ : Type} [DecidableEq κ] (key : α → κ) (g : α → Option β)
    (l : List α) (v : κ) :
    (alookup v (l.foldl (fun acc x =>
        (g x).elim acc
          (fun r => aset (key x) (((alookup (key x) acc).getD []) ++ [r]) acc)) [])).getD []
      = l.filterMap (fun x => if key x = v then g x else none) := by
  rw [groupFold_lookup]
  cases he : l.filterMap (fun x => if key x = v then g x else none) with
  | nil => simp [alookup]
  | cons y ys => simp [alookup]

theorem setFold_lookup {α β κ : Type} [DecidableEq κ] (key : α → κ) (val : α → β)
    (l : List α) (acc : List (κ × β)) (v : κ) :
    alookup v (l.foldl (fun acc x => aset (key x) (val x) acc) acc)
      = (match l.reverse.find? (fun x => decide (key x = v)) with
         | some x => some (val x)
         | none => alookup v acc) := by
  induction l generalizing acc with
  | nil => simp
  | cons x xs ih =>
    rw [List.foldl_cons, ih (aset (key x) (val x) acc)]
    rw [List.reverse_cons, List.find?_append]
    cases hf : xs.reverse.find? (fun y => decide (key y = v)) with
    | some y => simp [hf, Option.orElse]
    | none =>
      simp only [hf, Option.none_orElse]
      by_cases hk : key x = v
      · subst hk
        simp [List.find?, alookup_aset_self]
      · simp [List.find?, hk, alookup_aset_ne _ _ (Ne.symm hk)]

theorem filterMap_ext_mem {α β : Type} (f g : α → Option β) (l : List α)
    (h : ∀ a ∈ l, f a = g a) : l.filterMap f = l.filterMap g := by
  induction l with
  | nil => rfl
  | cons x xs ih =>
    rw [List.filterMap_cons, List.filterMap_cons, h x (by simp),
      ih (fun a ha => h a (by simp [ha]))]

theorem inSelect_bindings (t c : String) (vals : List QVal) :
    (inSelect t c vals).bindings = vals := by
  simp [inSelect, compileSelect, whereBindings, WhereVal.asList, limitBindings, offsetBindings]

theorem groupSelf_getD (fk : String) (related : List MRec) (v : QVal) :
    (alookup v (related.foldl (fun acc r =>
        aset (attrGet r.attrs fk) (((alookup (attrGet r.attrs fk) acc).getD []) ++ [r]) acc)
        [])).getD []
      = related.filter (fun r => decide (attrGet r.attrs fk = v)) := by
  have h := groupFold_getD (fun r => attrGet r.attrs fk) (fun r => (some r : Option MRec))
    related v
  exact h.trans (filterMap_if_eq_filter (fun r => attrGet r.attrs fk = v) related)

theorem lastWins_lookup (k : String) (related : List MRec) (v : QVal) :
    alookup v (related.foldl (fun acc r => aset (attrGet r.attrs k) r acc) [])
      = related.reverse.find? (fun r => decide (attrGet r.attrs k = v)) := by
  have h := setFold_lookup (fun r => attrGet r.attrs k) (fun r => r) related [] v
  refine h.trans ?_
  cases related.reverse.find? (fun r => decide (attrGet r.attrs k = v)) <;> rfl

/-- **C2** (amended): for the to-many variant as implemented in
`src/src/relationships/hasMany.ts`, `eagerLoadFor` issues exactly one
batched IN query whose bound values are the parents' local-key values
*as-is* (duplicates and loosely-null values included, no deduplication),
and assigns each parent the private-slot list of exactly the hydrated
related rows whose foreign key equals its local key, `[]` when none
match.  The one-to-one and inverse variants first assign `null`
everywhere without querying when every key value is loosely null, and
otherwise issue exactly one batched IN query over the distinct non-null
key values in input order, assigning each parent its match (the last
matching related row wins) or `null`.  The pivot variant short-circuits
the same way with `[]` lists; otherwise it issues one pivot-table IN
query over the distinct non-null parent keys, and — only when that
returns at least one row — a second IN query against the related table
over the distinct pivot-side related ids, assigning each parent its
pivot-joined matches in the private slot; when the pivot query returns
no rows it stops after that single query and writes the `[]` default
through the *public attribute* path instead of the private slot. -/
theorem C2_eager_batching (db : DB) (relTable fk lk : String) (models : List MRec)
    (pivotTable fpk rpk pk rk : String) :
    (hasManyEagerLoadFor db relTable fk lk models
      = { writes := models.map (fun m => (WriteKind.privateSlot, RelVal.rmany
            ((inRows db relTable fk (keysOf lk models)).filter
              (fun r => decide (attrGet r.attrs fk = attrGet m.attrs lk)))))
          queries := [((inSelect relTable fk (keysOf lk models)).sql, keysOf lk models)]
          warns := [] }) ∧
    ((keysOf lk models).any QVal.nonNull = false →
      hasOneEagerLoadFor db relTable fk lk models
        = { writes := models.map (fun _ => (WriteKind.privateSlot, RelVal.rnull)),
            queries := [], warns := [] }) ∧
    ((keysOf lk models).any QVal.nonNull = true →
      hasOneEagerLoadFor db relTable fk lk models
        = { writes := models.map (fun m =>
              match (inRows db relTable fk
                  (dedupFirst ((keysOf lk models).filter QVal.nonNull))).reverse.find?
                  (fun r => decide (attrGet r.attrs fk = attrGet m.attrs lk)) with
              | some r => (WriteKind.privateSlot, RelVal.rone r)
              | none => (WriteKind.privateSlot, RelVal.rnull))
            queries := [((inSelect relTable fk
                (dedupFirst ((keysOf lk models).filter QVal.nonNull))).sql,
              dedupFirst ((keysOf lk models).filter QVal.nonNull))]
            warns := [] }) ∧
    ((keysOf fk models).any QVal.nonNull = true →
      belongsToEagerLoadFor db relTable fk lk models
        = { writes := models.map (fun m =>
              match (inRows db relTable lk
                  (dedupFirst ((keysOf fk models).filter QVal.nonNull))).reverse.find?
                  (fun r => decide (attrGet r.attrs lk = attrGet m.attrs fk)) with
              | some r => (WriteKind.privateSlot, RelVal.rone r)
              | none => (WriteKind.privateSlot, RelVal.rnull))
            queries := [((inSelect relTable lk
                (dedupFirst ((keysOf fk models).filter QVal.nonNull))).sql,
              dedupFirst ((keysOf fk models).filter QVal.nonNull))]
            warns := [] }) ∧
    ((keysOf pk models).any QVal.nonNull = false →
      belongsToManyEagerLoadFor db relTable pivotTable fpk rpk pk rk models
        = { writes := models.map (fun _ => (WriteKind.privateSlot, RelVal.rmany [])),
            queries := [], warns := [] }) ∧
    ((keysOf pk models).any QVal.nonNull = true →
      (pivotRowsOf db pivotTable fpk pk models = [] →
        belongsToManyEagerLoadFor db relTable pivotTable fpk rpk pk rk models
          = { writes := models.map (fun _ => (WriteKind.publicAttr, RelVal.rmany [])),
              queries := [((pivotSel pivotTable fpk pk models).sql,
                dedupFirst ((keysOf pk models).filter QVal.nonNull))],
              warns := [] }) ∧
      (pivotRowsOf db pivotTable fpk pk models ≠ [] →
        belongsToManyEagerLoadFor db relTable pivotTable fpk rpk pk rk models
          = { writes := models.map (fun m => (WriteKind.privateSlot, RelVal.rmany
                ((pivotRowsOf db pivotTable fpk pk models).filterMap (fun prow =>
                  if attrGet prow fpk = attrGet m.attrs pk then
                    (inRows db relTable rk
                        (pivotRelIds db pivotTable fpk rpk pk models)).reverse.find?
                      (fun r => decide (attrGet r.attrs rk = attrGet prow rpk))
                  else none)))),
              queries := [((pivotSel pivotTable fpk pk models).sql,
                  dedupFirst ((keysOf pk models).filter QVal.nonNull)),
                ((inSelect relTable rk (pivotRelIds db pivotTable fpk rpk pk models)).sql,
                  pivotRelIds db pivotTable fpk rpk pk models)],
              warns := [] })) := by
  refine ⟨?_, ?_, ?_, ?_, ?_, ?_⟩
  · refine (EagerOut.mk.injEq _ _ _ _ _ _).mpr ⟨?_, ?_, rfl⟩
    · refine List.map_congr_left ?_
      intro m _
      exact congrArg (fun l => (WriteKind.privateSlot, RelVal.rmany l))
        (groupSelf_getD fk _ (attrGet m.attrs lk))
    · exact congrArg (fun b => [((inSelect relTable fk (keysOf lk models)).sql, b)])
        (inSelect_bindings relTable fk (keysOf lk models))
  · intro h
    unfold hasOneEagerLoadFor
    simp only [keysOf] at h
    simp [h]
  · intro h
    unfold hasOneEagerLoadFor queryGetIN
    simp only [keysOf] at h
    simp only [h, Bool.not_true, Bool.false_eq_true, if_false]
    refine (EagerOut.mk.injEq _ _ _ _ _ _).mpr ⟨?_, ?_, rfl⟩
    · refine List.map_congr_left ?_
      intro m _
      rw [lastWins_lookup fk (inRows db relTable fk
        (dedupFirst ((keysOf lk models).filter QVal.nonNull))) (attrGet m.attrs lk)]
    · exact congrArg (fun b => [((inSelect relTable fk
        (dedupFirst ((keysOf lk models).filter QVal.nonNull))).sql, b)])
        (inSelect_bindings relTable fk (dedupFirst ((keysOf lk models).filter QVal.nonNull)))
  · intro h
    unfold belongsToEagerLoadFor queryGetIN
    simp only [keysOf] at h
    simp only [h, Bool.not_true, Bool.false_eq_true, if_false]
    refine (EagerOut.mk.injEq _ _ _ _ _ _).mpr ⟨?_, ?_, rfl⟩
    · refine List.map_congr_left ?_
      intro m _
      rw [lastWins_lookup lk (inRows db relTable lk
        (dedupFirst ((keysOf fk models).filter QVal.nonNull))) (attrGet m.attrs fk)]
    · exact congrArg (fun b => [((inSelect relTable lk
        (dedupFirst ((keysOf fk models).filter QVal.nonNull))).sql, b)])
        (inSelect_bindings relTable lk (dedupFirst ((keysOf fk models).filter QVal.nonNull)))
  · intro h
    unfold belongsToManyEagerLoadFor
    simp only [keysOf] at h
    simp [h]
  · intro h
    simp only [keysOf] at h
    refine ⟨?_, ?_⟩
    · intro hp
      unfold belongsToManyEagerLoadFor
      simp only [h, Bool.not_true, Bool.false_eq_true, if_false]
      rw [if_pos hp]
      refine (EagerOut.mk.injEq _ _ _ _ _ _).mpr ⟨rfl, ?_, rfl⟩
      exact congrArg (fun b => [((pivotSel pivotTable fpk pk models).sql, b)])
        (inSelect_bindings pivotTable fpk
          (dedupFirst ((keysOf pk models).filter QVal.nonNull)))
    · intro hp
      unfold belongsToManyEagerLoadFor queryGetIN
      simp only [h, Bool.not_true, Bool.false_eq_true, if_false]
      rw [if_neg hp]
      refine (EagerOut.mk.injEq _ _ _ _ _ _).mpr ⟨?_, ?_, rfl⟩
      · refine List.map_congr_left ?_
        intro m _
        refine congrArg (fun l => (WriteKind.privateSlot, RelVal.rmany l)) ?_
        refine Eq.trans (groupFold_getD (fun prow : Row => attrGet prow fpk)
          (fun prow => alookup (attrGet prow rpk)
            ((inRows db relTable rk (pivotRelIds db pivotTable fpk rpk pk models)).foldl
              (fun acc (r : MRec) => aset (attrGet r.attrs rk) r acc) []))
          (pivotRowsOf db pivotTable fpk pk models) (attrGet m.attrs pk)) ?_
        refine filterMap_ext_mem _ _ _ ?_
        intro prow _
        by_cases hk : attrGet prow fpk = attrGet m.attrs pk
        · rw [if_pos hk, if_pos hk]
          exact lastWins_lookup rk
            (inRows db relTable rk (pivotRelIds db pivotTable fpk rpk pk models))
            (attrGet prow rpk)
        · rw [if_neg hk, if_neg hk]
      · refine congrArg₂ (fun b1 b2 => [((pivotSel pivotTable fpk pk models).sql, b1),
          ((inSelect relTable rk (pivotRelIds db pivotTable fpk rpk pk models)).sql, b2)])
          ?_ ?_
        · exact inSelect_bindings pivotTable fpk
            (dedupFirst ((keysOf pk models).filter QVal.nonNull))
        · exact inSelect_bindings relTable rk (pivotRelIds db pivotTable fpk rpk pk models)

/-- Counterexample to **C2** as stated: two parents sharing local key 1
make the source `HasMany.eagerLoadFor` issue an IN query bound to
`[1, 1]` — the collected key values are not distinct (and loosely-null
values are not filtered either). -/
theorem C2_counterexample :
    ((hasManyEagerLoadFor (fun _ _ => []) "posts" "user_id" "id"
        [hydrate [("id", QVal.i 1)], hydrate [("id", QVal.i 1)]]).queries.map Prod.snd
      = [[QVal.i 1, QVal.i 1]]) ∧
    ¬ ([QVal.i 1, QVal.i 1] : List QVal).Nodup := by
  exact ⟨rfl, by decide⟩

/-- Witness for `C2_eager_batching`: one parent with a non-null key, a
database returning one matching row. -/
theorem C2_eager_batching_witness :
    ((keysOf "id" [hydrate [("id", QVal.i 1)]]).any QVal.nonNull = true) ∧
    (hasOneEagerLoadFor (fun _ _ => [[("user_id", QVal.i 1)]]) "profiles" "user_id" "id"
        [hydrate [("id", QVal.i 1)]]).queries.length = 1 := by
  refine ⟨by decide, ?_⟩
  have h := (C2_eager_batching (fun _ _ => [[("user_id", QVal.i 1)]]) "profiles" "user_id"
    "id" [hydrate [("id", QVal.i 1)]] "pt" "fpk" "rpk" "pk" "rk").2.2.1 (by decide)
  rw [h]
  rfl

/-! ## C5: hybrid row-cache reads (`ORM.cachedSelect`) -/

theorem stepFold_spec (f : QVal → Option Row) (params : List QVal)
    (acc : List Row × List QVal) :
    params.foldl (fun (acc : List Row × List QVal) id =>
        (f id).elim (acc.1, acc.2 ++ [id]) (fun row => (acc.1 ++ [row], acc.2))) acc
      = (acc.1 ++ params.filterMap f, acc.2 ++ params.filter (fun id => (f id).isNone)) := by
  induction params generalizing acc with
  | nil => simp
  | cons id tl ih =>
    rw [List.foldl_cons]
    cases hf : f id with
    | none =>
      simp only [hf, Option.elim_none]
      rw [ih]
      simp [List.filterMap_cons, List.filter_cons, hf]
    | some row =>
      simp only [hf, Option.elim_some]
      rw [ih]
      simp [List.filterMap_cons, List.filter_cons, hf]

theorem setRowFold_cache (t : String) (l : List Row) (mc : MemCache) :
    (l.foldl (fun mc row => setRowById mc t (attrGet row "id") row) mc).cache = mc.cache ∧
    (l.foldl (fun mc row => setRowById mc t (attrGet row "id") row) mc).tagMap = mc.tagMap := by
  induction l generalizing mc with
  | nil => exact ⟨rfl, rfl⟩
  | cons r tl ih =>
    rw [List.foldl_cons]
    exact ⟨((ih _).1).trans rfl, ((ih _).2).trans rfl⟩

theorem find_filterMap_keyed (rowFor : QVal → Option Row) (l : List QVal) (v : QVal)
    (hk : ∀ id r, rowFor id = some r → attrGet r "id" = id) :
    (l.filterMap rowFor).find? (fun r => decide (attrGet r "id" = v))
      = if v ∈ l then rowFor v else none := by
  induction l with
  | nil => simp
  | cons id tl ih =>
    cases hr : rowFor id with
    | none =>
      simp only [List.filterMap_cons, hr]
      rw [ih]
      by_cases hv : v = id
      · subst hv
        by_cases hm : v ∈ tl
        · simp [hm]
        · simp [hm, hr]
      · simp [List.mem_cons, hv]
    | some r =>
      have hkey : attrGet r "id" = id := hk id r hr
      simp only [List.filterMap_cons, hr]
      by_cases hv : v = id
      · subst hv
        rw [List.find?_cons_of_pos _ (by simp [hkey])]
        simp [hr]
      · rw [List.find?_cons_of_neg _ (by simp [hkey]; exact fun h => hv h.symm)]
        rw [ih]
        simp [List.mem_cons, hv]

theorem find_rev_filterMap_keyed (rowFor : QVal → Option Row) (l : List QVal) (v : QVal)
    (hk : ∀ id r, rowFor id = some r → attrGet r "id" = id) :
    (l.filterMap rowFor).reverse.find? (fun r => decide (attrGet r "id" = v))
      = if v ∈ l then rowFor v else none := by
  rw [← List.filterMap_reverse, find_filterMap_keyed rowFor l.reverse v hk]
  simp [List.mem_reverse]

theorem rowMerge_lookup (g rowFor : QVal → Option Row) (params : List QVal) (v : QVal)
    (hc : ∀ id r, g id = some r → rowFor id = some r)
    (hk : ∀ id r, rowFor id = some r → attrGet r "id" = id)
    (hv : v ∈ params) :
    alookup v (((params.filter (fun id => (g id).isNone)).filterMap rowFor).foldl
        (fun m row => aset (attrGet row "id") row m)
        ((params.filterMap g).foldl (fun m row => aset (attrGet row "id") row m) []))
      = rowFor v := by
  have hkg : ∀ id r, g id = some r → attrGet r "id" = id := fun id r h => hk id r (hc id r h)
  rw [setFold_lookup (fun row => attrGet row "id") (fun row => row) _ _ v]
  rw [find_rev_filterMap_keyed rowFor _ v hk]
  by_cases hgm : (g v).isNone
  · have hvm : v ∈ params.filter (fun id => (g id).isNone) := List.mem_filter.mpr ⟨hv, hgm⟩
    rw [if_pos hvm]
    cases hr : rowFor v with
    | some r => rfl
    | none =>
      show alookup v ((params.filterMap g).foldl
        (fun m row => aset (attrGet row "id") row m) []) = none
      rw [setFold_lookup (fun row => attrGet row "id") (fun row => row) _ _ v]
      rw [find_rev_filterMap_keyed g _ v hkg, if_pos hv,
        Option.isNone_iff_eq_none.mp hgm]
      rfl
  · have hvm : v ∉ params.filter (fun id => (g id).isNone) := by
      intro hmem
      exact hgm (List.mem_filter.mp hmem).2
    rw [if_neg hvm]
    show alookup v ((params.filterMap g).foldl
      (fun m row => aset (attrGet row "id") row m) []) = rowFor v
    rw [setFold_lookup (fun row => attrGet row "id") (fun row => row) _ _ v]
    rw [find_rev_filterMap_keyed g _ v hkg, if_pos hv]
    cases hgv : g v with
    | some r =>
      rw [hc v r hgv]
    | none => exact absurd (by simp [hgv]) hgm

/-- **C5** (confirmed): when a select is recognized as a full-row fetch
(`SELECT * FROM t WHERE ...`) with a single-equality primary-key
predicate (`id = ?`, one parameter), `cachedSelect` answers a row-cache
hit as `[row]` without touching the query cache or the backend, and on a
miss queries the backend, caches the first returned row under
`(table, id)`, and returns the backend rows unchanged.  With a
set-membership predicate (`id IN (...)`), the ids already present in the
row cache are served from it: when no id is missing the backend is not
called at all, otherwise exactly the missing ids are fetched in one
batched `SELECT * FROM t WHERE id IN (?, ...)` statement, the fetched
rows are stored in the row cache (leaving the query-level entries and
tag index untouched), and the returned list is the parameters' rows
re-merged in the caller's original id order (ids that resolve to no row
are dropped).  Throughout, `setRowById` never modifies the query-level
cache map or the tag index. -/
theorem C5_row_cache_path (db : String → List QVal → List Row) (cfg : OrmCfg)
    (mc : MemCache) (now : Nat) (sql : String) (params : List QVal)
    (tables : List String) (table wstr : String) (p : QVal) (row : Row)
    (rowFor : QVal → Option Row)
    (hm : selectStarMatch sql = some (table, wstr))
    (hdis : cfg.disableResultCache = false) (htx : cfg.inTransaction = false) :
    (eqMatchW wstr.data = true → getRowById mc table p = some row →
      cachedSelect db cfg (some mc) now sql [p] tables = ([row], some mc, [])) ∧
    (eqMatchW wstr.data = true → getRowById mc table p = none → db sql [p] = [] →
      cachedSelect db cfg (some mc) now sql [p] tables = ([], some mc, [(sql, [p])])) ∧
    (∀ r0 rest, eqMatchW wstr.data = true → getRowById mc table p = none →
      db sql [p] = r0 :: rest →
      cachedSelect db cfg (some mc) now sql [p] tables
        = (r0 :: rest, some (setRowById mc table p r0), [(sql, [p])])) ∧
    (eqMatchW wstr.data = false → inMatchW wstr.data = true →
      (∀ id r, getRowById mc table id = some r → rowFor id = some r) →
      (∀ id r, rowFor id = some r → attrGet r "id" = id) →
      params.filter (fun id => (getRowById mc table id).isNone) = [] →
      cachedSelect db cfg (some mc) now sql params tables
        = (params.filterMap rowFor, some mc, [])) ∧
    (eqMatchW wstr.data = false → inMatchW wstr.data = true →
      (∀ id r, getRowById mc table id = some r → rowFor id = some r) →
      (∀ id r, rowFor id = some r → attrGet r "id" = id) →
      params.filter (fun id => (getRowById mc table id).isNone) ≠ [] →
      db ("SELECT * FROM " ++ table ++ " WHERE id IN ("
          ++ joinComma ((params.filter (fun id =>
                (getRowById mc table id).isNone)).map (fun _ => "?")) ++ ")")
          (params.filter (fun id => (getRowById mc table id).isNone))
        = (params.filter (fun id => (getRowById mc table id).isNone)).filterMap rowFor →
      cachedSelect db cfg (some mc) now sql params tables
        = (params.filterMap rowFor,
           some (((params.filter (fun id =>
               (getRowById mc table id).isNone)).filterMap rowFor).foldl
             (fun mc row => setRowById mc table (attrGet row "id") row) mc),
           [("SELECT * FROM " ++ table ++ " WHERE id IN ("
               ++ joinComma ((params.filter (fun id =>
                     (getRowById mc table id).isNone)).map (fun _ => "?")) ++ ")",
             params.filter (fun id => (getRowById mc table id).isNone))])) ∧
    (∀ (mc0 : MemCache) (t : String) (id : QVal) (r : Row),
      (setRowById mc0 t id r).cache = mc0.cache ∧ (setRowById mc0 t id r).tagMap = mc0.tagMap)
    := by
  refine ⟨?_, ?_, ?_, ?_, ?_, fun _ _ _ _ => ⟨rfl, rfl⟩⟩
  · intro heq hrow
    unfold cachedSelect
    simp only [hdis, htx, Bool.or_self, Bool.false_eq_true, if_false, hm]
    rw [if_pos (And.intro heq (show ([p] : List QVal).length = 1 from rfl))]
    simp only [List.headD_cons, hrow]
  · intro heq hrow hdb
    unfold cachedSelect
    simp only [hdis, htx, Bool.or_self, Bool.false_eq_true, if_false, hm]
    rw [if_pos (And.intro heq (show ([p] : List QVal).length = 1 from rfl))]
    simp only [List.headD_cons, hrow, hdb]
  · intro r0 rest heq hrow hdb
    unfold cachedSelect
    simp only [hdis, htx, Bool.or_self, Bool.false_eq_true, if_false, hm]
    rw [if_pos (And.intro heq (show ([p] : List QVal).length = 1 from rfl))]
    simp only [List.headD_cons, hrow, hdb]
  · intro heq hin hc hk hmiss
    unfold cachedSelect
    simp only [hdis, htx, Bool.or_self, Bool.false_eq_true, if_false, hm]
    rw [if_neg (show ¬(eqMatchW wstr.data = true ∧ params.length = 1) from
      fun hh => by simp [heq] at hh)]
    rw [if_pos hin]
    rw [show params.foldl (fun (acc : List Row × List QVal) id =>
        (getRowById mc table id).elim (acc.1, acc.2 ++ [id])
          (fun row => (acc.1 ++ [row], acc.2))) ([], [])
      = (params.filterMap (getRowById mc table),
         params.filter (fun id => (getRowById mc table id).isNone)) from
      by simpa using stepFold_spec (getRowById mc table) params ([], [])]
    rw [hmiss]
    rw [if_neg (show ¬(([] : List QVal) ≠ []) from fun h => h rfl)]
    refine (Prod.mk.injEq _ _ _ _).mpr ⟨?_, rfl⟩
    refine filterMap_ext_mem _ _ _ ?_
    intro id hid
    have h := rowMerge_lookup (getRowById mc table) rowFor params id hc hk hid
    rw [hmiss] at h
    exact h
  · intro heq hin hc hk hmiss hdbf
    unfold cachedSelect
    simp only [hdis, htx, Bool.or_self, Bool.false_eq_true, if_false, hm]
    rw [if_neg (show ¬(eqMatchW wstr.data = true ∧ params.length = 1) from
      fun hh => by simp [heq] at hh)]
    rw [if_pos hin]
    rw [show params.foldl (fun (acc : List Row × List QVal) id =>
        (getRowById mc table id).elim (acc.1, acc.2 ++ [id])
          (fun row => (acc.1 ++ [row], acc.2))) ([], [])
      = (params.filterMap (getRowById mc table),
         params.filter (fun id => (getRowById mc table id).isNone)) from
      by simpa using stepFold_spec (getRowById mc table) params ([], [])]
    rw [if_pos hmiss]
    rw [hdbf]
    refine (Prod.mk.injEq _ _ _ _).mpr ⟨?_, rfl⟩
    refine filterMap_ext_mem _ _ _ ?_
    intro id hid
    exact rowMerge_lookup (getRowById mc table) rowFor params id hc hk hid

/-- Witness for `C5_row_cache_path`: a one-row row cache fully answers
`SELECT * FROM users WHERE id IN (?)` for id 1 with no backend call. -/
theorem C5_row_cache_path_witness :
    cachedSelect (fun _ _ => []) ⟨"default", false, false⟩
        (some { cache := [], tagMap := [],
                rowCache := [("users", [(QVal.i 1, [("id", QVal.i 1)])])],
                maxSize := 200, defaultTTL := none }) 0
        "SELECT * FROM users WHERE id IN (?)" [QVal.i 1] []
      = ([[("id", QVal.i 1)]],
         some { cache := [], tagMap := [],
                rowCache := [("users", [(QVal.i 1, [("id", QVal.i 1)])])],
                maxSize := 200, defaultTTL := none }, []) := by
  have h := (C5_row_cache_path (fun _ _ => []) ⟨"default", false, false⟩
    { cache := [], tagMap := [],
      rowCache := [("users", [(QVal.i 1, [("id", QVal.i 1)])])],
      maxSize := 200, defaultTTL := none } 0
    "SELECT * FROM users WHERE id IN (?)" [QVal.i 1] [] "users" "id IN (?)"
    QVal.undef [] (fun id => if id = QVal.i 1 then some [("id", QVal.i 1)] else none)
    rfl rfl rfl).2.2.2.1 rfl rfl
    (by
      intro id r hgr
      by_cases hid : QVal.i 1 = id
      · subst hid
        simp only [getRowById] at hgr
        simp only [if_pos rfl]
        exact (by simpa [alookup] using hgr)
      · simp [getRowById, alookup, hid] at hgr)
    (by
      intro id r hfr
      by_cases hid : id = QVal.i 1
      · subst hid
        rw [if_pos rfl] at hfr
        cases hfr
        rfl
      · rw [if_neg hid] at hfr
        exact absurd hfr (by simp))
    (by decide)
  rw [h]
  rfl

/-! ## C7: dirty tracking through hydrate / mutate / save -/

theorem filterMap_dirty_nil (A B : List (String × QVal))
    (hAB : ∀ kv ∈ A, attrGet B kv.1 = kv.2) :
    A.filterMap (fun kv => if kv.2 ≠ attrGet B kv.1 then some kv.1 else none) = [] := by
  induction A with
  | nil => simp
  | cons hd tl ih =>
    have h1 := hAB hd (List.mem_cons_self _ _)
    simp only [List.filterMap_cons, h1]
    simp only [ne_eq, not_true_eq_false, if_false, reduceIte]
    exact ih (fun kv hkv => hAB kv (List.mem_cons_of_mem _ hkv))

theorem attrGet_self_of_nodup {A : List (String × QVal)} (h : nodupKeys A = true) :
    ∀ kv ∈ A, attrGet A kv.1 = kv.2 := by
  intro kv hkv
  rw [attrGet, alookup_self_of_nodup h kv hkv]
  rfl

theorem getDirty_refl (A : List (String × QVal)) (e : Bool)
    (h : nodupKeys A = true) : getDirty ⟨A, A, e⟩ = [] := by
  unfold getDirty
  exact filterMap_dirty_nil A A (attrGet_self_of_nodup h)

theorem filterMap_dirty_aset (A B : List (String × QVal)) (F : String) (v : QVal)
    (hAB : ∀ kv ∈ A, attrGet B kv.1 = kv.2) (hv : v ≠ attrGet B F) :
    (aset F v A).filterMap (fun kv => if kv.2 ≠ attrGet B kv.1 then some kv.1 else none)
      = [F] := by
  induction A with
  | nil => simp [aset, hv]
  | cons hd tl ih =>
    have h1 := hAB hd (List.mem_cons_self _ _)
    by_cases hh : hd.1 = F
    · rw [aset, if_pos hh]
      simp only [List.filterMap_cons, hh, hv, ne_eq, not_false_eq_true, if_true, reduceIte]
      rw [filterMap_dirty_nil tl B (fun kv hkv => hAB kv (List.mem_cons_of_mem _ hkv))]
    · rw [aset, if_neg hh]
      simp only [List.filterMap_cons, h1]
      simp only [ne_eq, not_true_eq_false, if_false, reduceIte]
      exact ih (fun kv hkv => hAB kv (List.mem_cons_of_mem _ hkv))

/-- **C7**: after hydration from a query row the dirty set is empty;
after mutating exactly one field `F` to a value different from its
original the dirty set is `[F]`; and after a successful save — the
update path on the mutated record, or the insert path on any record —
the dirty set is empty again and the original snapshot equals the
current attribute map. -/
theorem C7_dirty_tracking (row : Row) (F : String) (v : QVal) (cfg : ModelCfg)
    (ts : Option TsConfig) (now : String) (w : WWorld) (newId : QVal) (m0 : MRec)
    (hrow : nodupKeys row = true) (hv : v ≠ attrGet row F)
    (hn0 : nodupKeys m0.attrs = true) :
    getDirty (hydrate row) = [] ∧
    getDirty (setAttr (hydrate row) F v) = [F] ∧
    (∃ m' w', updateRecord cfg ts now (setAttr (hydrate row) F v) w = .ok (m', w') ∧
      getDirty m' = [] ∧ m'.original = m'.attrs) ∧
    (getDirty (insertRecord cfg ts now newId m0 w).1 = [] ∧
      (insertRecord cfg ts now newId m0 w).1.original
        = (insertRecord cfg ts now newId m0 w).1.attrs) := by
  have part2 : getDirty (setAttr (hydrate row) F v) = [F] := by
    unfold getDirty setAttr hydrate
    exact filterMap_dirty_aset row row F v (attrGet_self_of_nodup hrow) hv
  refine ⟨getDirty_refl row true hrow, part2, ?_, ?_⟩
  · rw [updateRecord_dirty cfg ts now _ w rfl (by rw [part2]; simp)]
    refine ⟨_, _, rfl, ?_, rfl⟩
    cases ts with
    | none =>
      exact getDirty_refl _ _ (nodupKeys_aset F v row hrow)
    | some t =>
      exact getDirty_refl _ _ (nodupKeys_aset _ _ _ (nodupKeys_aset F v row hrow))
  · unfold insertRecord
    cases ts with
    | none =>
      exact ⟨getDirty_refl _ _ (nodupKeys_aset _ _ _ hn0), rfl⟩
    | some t =>
      exact ⟨getDirty_refl _ _ (nodupKeys_aset _ _ _
        (nodupKeys_aset _ _ _ (nodupKeys_aset _ _ _ hn0))), rfl⟩

/-- Witness for `C7_dirty_tracking` at a concrete row and mutation. -/
theorem C7_dirty_tracking_witness :
    (nodupKeys ([("id", QVal.i 1), ("name", QVal.s "Ada")] : Row) = true) ∧
    (QVal.s "Iris" ≠ attrGet ([("id", QVal.i 1), ("name", QVal.s "Ada")] : Row) "name") ∧
    getDirty (setAttr (hydrate [("id", QVal.i 1), ("name", QVal.s "Ada")]) "name"
      (QVal.s "Iris")) = ["name"] := by
  refine ⟨by decide, by decide, ?_⟩
  exact (C7_dirty_tracking [("id", QVal.i 1), ("name", QVal.s "Ada")] "name" (QVal.s "Iris")
    ⟨"users", "id"⟩ none "2024" ⟨none, []⟩ (QVal.i 7) (hydrate [])
    (by decide) (by decide) (by decide)).2.1

/-- Witness for `C10_clean_update_noop`: a freshly hydrated record. -/
theorem C10_clean_update_noop_witness :
    (hydrate [("id", QVal.i 1), ("name", QVal.s "Ada")]).existsF = true ∧
    getDirty (hydrate [("id", QVal.i 1), ("name", QVal.s "Ada")]) = [] ∧
    updateRecord ⟨"users", "id"⟩ none "2024-01-01"
        (hydrate [("id", QVal.i 1), ("name", QVal.s "Ada")]) ⟨none, []⟩
      = .ok (hydrate [("id", QVal.i 1), ("name", QVal.s "Ada")], ⟨none, []⟩) := by
  refine ⟨rfl, by decide, ?_⟩
  exact C10_clean_update_noop ⟨"users", "id"⟩ none "2024-01-01" _ _ rfl (by decide)

/-! ## C9: cache-key collision for equivalent calls -/

theorem rtrimWs_cons (a : Char) (Z : List Char) :
    rtrimWs (a :: Z)
      = if rtrimWs Z = [] then (if isWs a then [] else [a]) else a :: rtrimWs Z := by
  unfold rtrimWs
  rw [List.reverse_cons, List.dropWhile_append]
  by_cases hz : Z.reverse.dropWhile isWs = []
  · by_cases ha : isWs a
    · simp [hz, ha, List.dropWhile]
    · simp [hz, ha, List.dropWhile]
  · have hz2 : ¬((Z.reverse.dropWhile isWs).reverse = []) := by
      simpa using hz
    simp [hz, hz2]

theorem rtrimWs_cons_of_ne (a : Char) (Z : List Char) (h : rtrimWs Z ≠ []) :
    rtrimWs (a :: Z) = a :: rtrimWs Z := by
  rw [rtrimWs_cons]
  simp [h]

theorem rtrimWs_cons_nonws (a : Char) (Z : List Char) (h : isWs a = false) :
    rtrimWs (a :: Z) = a :: rtrimWs Z := by
  rw [rtrimWs_cons]
  by_cases hz : rtrimWs Z = []
  · simp [hz, h]
  · simp [hz]

theorem rtrimWs_cons_ws_nil (a : Char) (Z : List Char) (ha : isWs a = true)
    (h : rtrimWs Z = []) : rtrimWs (a :: Z) = [] := by
  rw [rtrimWs_cons]
  simp [h, ha]

theorem trimChars_eq_rtrim (l : List Char) : trimChars l = rtrimWs (l.dropWhile isWs) := rfl

theorem trimChars_cons_ws (a : Char) (X : List Char) (ha : isWs a = true) :
    trimChars (a :: X) = trimChars X := by
  rw [trimChars_eq_rtrim, trimChars_eq_rtrim, List.dropWhile_cons_of_pos ha]

theorem trimChars_cons_nonws (a : Char) (X : List Char) (ha : isWs a = false) :
    trimChars (a :: X) = a :: rtrimWs X := by
  rw [trimChars_eq_rtrim, List.dropWhile_cons_of_neg (by simp [ha])]
  exact rtrimWs_cons_nonws a X ha

theorem wsTokens_cons_ws (c : Char) (rest : List Char) (h : isWs c = true) :
    wsTokens (c :: rest) = wsTokens rest := by
  simp [wsTokens, h]

theorem wsTokens_ne_nil (d : Char) (rest : List Char) (h : isWs d = false) :
    wsTokens (d :: rest) ≠ [] := by
  simp only [wsTokens, h, Bool.false_eq_true, if_false]
  cases rest with
  | nil => simp
  | cons e tl =>
    by_cases he : isWs e
    · simp [he]
    · cases htl : wsTokens (e :: tl) <;> simp [he, htl]

theorem wsTokens_no_nil (l : List Char) : ∀ tok ∈ wsTokens l, tok ≠ [] := by
  induction l with
  | nil => intro tok h; simp [wsTokens] at h
  | cons c rest ih =>
    intro tok htok
    by_cases hc : isWs c
    · rw [wsTokens_cons_ws c rest hc] at htok
      exact ih tok htok
    · simp only [wsTokens, hc, Bool.false_eq_true, if_false] at htok
      cases rest with
      | nil =>
        simp at htok
        simp [htok]
      | cons d tl =>
        by_cases hd : isWs d
        · simp only [hd, if_true] at htok
          rcases List.mem_cons.mp htok with h1 | h2
          · simp [h1]
          · exact ih tok h2
        · simp only [hd, Bool.false_eq_true, if_false] at htok
          cases hw : wsTokens (d :: tl) with
          | nil => rw [hw] at htok; simp at htok; simp [htok]
          | cons t ts =>
            rw [hw] at htok
            rcases List.mem_cons.mp htok with h1 | h2
            · simp [h1]
            · exact ih tok (by rw [hw]; exact List.mem_cons_of_mem t h2)

theorem joinTokens_ne_nil (t : List Char) (ts : List (List Char)) (h : t ≠ []) :
    joinTokens (t :: ts) ≠ [] := by
  cases ts with
  | nil => simpa [joinTokens] using h
  | cons t2 ts2 =>
    simp only [joinTokens]
    cases t with
    | nil => simp
    | cons c cs => simp

theorem wsTokens_step_cons (c d : Char) (tl tok : List Char)
    (toks : List (List Char)) (hc : isWs c = false) (hd : isWs d = false)
    (hw : wsTokens (d :: tl) = tok :: toks) :
    wsTokens (c :: d :: tl) = (c :: tok) :: toks := by
  conv_lhs => rw [wsTokens.eq_def]
  simp only [hc, Bool.false_eq_true, if_false, hd, hw]

theorem collapse_trim_tokens (l : List Char) :
    trimChars (collapseWs false l) = joinTokens (wsTokens l) ∧
    trimChars (collapseWs true l) = joinTokens (wsTokens l) ∧
    rtrimWs (collapseWs true l) = joinTokens (wsTokens l) ∧
    rtrimWs (collapseWs false l)
      = (match l with
         | [] => []
         | c :: _ =>
           if isWs c then
             (match wsTokens l with
              | [] => []
              | _ :: _ => ' ' :: joinTokens (wsTokens l))
           else joinTokens (wsTokens l)) := by
  induction l with
  | nil => exact ⟨rfl, rfl, rfl, rfl⟩
  | cons c rest ih =>
    obtain ⟨ih1, ih2, ih3, ih4⟩ := ih
    by_cases hc : isWs c
    · -- whitespace head
      have hcf : collapseWs false (c :: rest) = ' ' :: collapseWs true rest := by
        simp [collapseWs, hc]
      have hct : collapseWs true (c :: rest) = collapseWs true rest := by
        simp [collapseWs, hc]
      have hwt : wsTokens (c :: rest) = wsTokens rest := wsTokens_cons_ws c rest hc
      refine ⟨?_, ?_, ?_, ?_⟩
      · rw [hcf, trimChars_cons_ws ' ' _ rfl, hwt, ih2]
      · rw [hct, hwt, ih2]
      · rw [hct, hwt, ih3]
      · rw [hcf, hwt]
        simp only [hc, if_true]
        cases hw : wsTokens rest with
        | nil =>
          have h3 : rtrimWs (collapseWs true rest) = [] := by
            rw [ih3, hw]; rfl
          exact rtrimWs_cons_ws_nil ' ' _ rfl h3
        | cons tok toks =>
          have htne : tok ≠ [] := wsTokens_no_nil rest tok (by rw [hw]; simp)
          have h3 : rtrimWs (collapseWs true rest) ≠ [] := by
            rw [ih3, hw]
            exact joinTokens_ne_nil tok toks htne
          rw [rtrimWs_cons_of_ne ' ' _ h3, ih3, hw]
    · -- non-whitespace head
      have hcne : isWs c = false := by simpa using hc
      have hcf : collapseWs false (c :: rest) = c :: collapseWs false rest := by
        simp [collapseWs, hcne]
      have hct : collapseWs true (c :: rest) = c :: collapseWs false rest := by
        simp [collapseWs, hcne]
      have key : c :: rtrimWs (collapseWs false rest) = joinTokens (wsTokens (c :: rest)) := by
        rw [ih4]
        cases rest with
        | nil => simp [wsTokens, hcne, joinTokens]
        | cons d tl =>
          by_cases hd : isWs d
          · cases hw : wsTokens (d :: tl) with
            | nil =>
              have hw2 := hw
              rw [wsTokens_cons_ws d tl hd] at hw2
              simp [wsTokens, joinTokens, hcne, hd, hw2]
            | cons tok toks =>
              have hw2 := hw
              rw [wsTokens_cons_ws d tl hd] at hw2
              simp [wsTokens, joinTokens, hcne, hd, hw2]
          · have hdne : isWs d = false := by simpa using hd
            cases hw : wsTokens (d :: tl) with
            | nil => exact absurd hw (wsTokens_ne_nil d tl hdne)
            | cons tok toks =>
              rw [wsTokens_step_cons c d tl tok toks hcne hdne hw]
              simp only [hdne, Bool.false_eq_true, if_false]
              cases toks with
              | nil => rfl
              | cons t2 ts2 => rfl
      refine ⟨?_, ?_, ?_, ?_⟩
      · rw [hcf, trimChars_cons_nonws c _ hcne, key]
      · rw [hct, trimChars_cons_nonws c _ hcne, key]
      · rw [hct, rtrimWs_cons_nonws c _ hcne, key]
      · rw [hcf, rtrimWs_cons_nonws c _ hcne, key]
        simp [hcne]

theorem joinTokens_map_lower (toks : List (List Char)) :
    (joinTokens toks).map Char.toLower
      = joinTokens (toks.map (List.map Char.toLower)) := by
  induction toks with
  | nil => rfl
  | cons t ts ih =>
    cases ts with
    | nil => rfl
    | cons t2 ts2 =>
      have hj : joinTokens (t :: t2 :: ts2) = t ++ ' ' :: joinTokens (t2 :: ts2) := rfl
      rw [hj, List.map_append, List.map_cons, ih]
      rfl

theorem normalizeSql_tokens (s : String) :
    normalizeSql s
      = String.mk (joinTokens ((wsTokens s.data).map (List.map Char.toLower))) := by
  unfold normalizeSql
  rw [(collapse_trim_tokens s.data).1, joinTokens_map_lower]

theorem insortPair_perm (p : String × String) (l : List (String × String)) :
    (insortPair p l).Perm (p :: l) := by
  induction l with
  | nil => exact List.Perm.refl _
  | cons q rest ih =>
    unfold insortPair
    by_cases h : p.1 ≤ q.1
    · rw [if_pos h]
    · rw [if_neg h]
      exact (ih.cons q).trans (List.Perm.swap p q rest)

theorem sortPairs_perm (l : List (String × String)) : (sortPairs l).Perm l := by
  induction l with
  | nil => exact List.Perm.refl _
  | cons x l ih =>
    have hx : sortPairs (x :: l) = insortPair x (sortPairs l) := rfl
    rw [hx]
    exact (insortPair_perm x (sortPairs l)).trans (ih.cons x)

theorem insortPair_sorted (p : String × String) (l : List (String × String))
    (h : List.Sorted (fun p q : String × String => p.1 ≤ q.1) l) :
    List.Sorted (fun p q : String × String => p.1 ≤ q.1) (insortPair p l) := by
  induction l with
  | nil => simp [insortPair]
  | cons q rest ih =>
    obtain ⟨hq, hrest⟩ := List.sorted_cons.mp h
    unfold insortPair
    by_cases hle : p.1 ≤ q.1
    · rw [if_pos hle]
      refine List.sorted_cons.mpr ⟨?_, h⟩
      intro b hb
      rcases List.mem_cons.mp hb with h1 | h1
      · exact h1 ▸ hle
      · exact le_trans hle (hq b h1)
    · rw [if_neg hle]
      refine List.sorted_cons.mpr ⟨?_, ih hrest⟩
      intro b hb
      rcases List.mem_cons.mp ((insortPair_perm p rest).mem_iff.mp hb) with h1 | h1
      · exact h1 ▸ le_of_not_le hle
      · exact hq b h1

theorem sortPairs_sorted (l : List (String × String)) :
    List.Sorted (fun p q : String × String => p.1 ≤ q.1) (sortPairs l) := by
  induction l with
  | nil => simp [sortPairs]
  | cons x l ih => exact insortPair_sorted x (sortPairs l) ih

theorem sorted_keyed_eq : ∀ (l1 l2 : List (String × String)), l1.Perm l2 →
    List.Sorted (fun p q : String × String => p.1 ≤ q.1) l1 →
    List.Sorted (fun p q : String × String => p.1 ≤ q.1) l2 →
    (l1.map Prod.fst).Nodup → l1 = l2 := by
  intro l1
  induction l1 with
  | nil =>
    intro l2 hp _ _ _
    exact (List.Perm.eq_nil hp.symm).symm
  | cons p t1 ih =>
    intro l2 hp hs1 hs2 hnd
    cases l2 with
    | nil => exact absurd (List.Perm.eq_nil hp) (by simp)
    | cons q t2 =>
      rw [List.map_cons] at hnd
      have hnd2 := List.nodup_cons.mp hnd
      have hpq : p = q := by
        have hpmem : p ∈ q :: t2 := hp.mem_iff.mp (List.mem_cons_self p t1)
        have hqmem : q ∈ p :: t1 := hp.mem_iff.mpr (List.mem_cons_self q t2)
        rcases List.mem_cons.mp hpmem with h1 | h1
        · exact h1
        rcases List.mem_cons.mp hqmem with h2 | h2
        · exact h2.symm
        have hle1 : p.1 ≤ q.1 := (List.sorted_cons.mp hs1).1 q h2
        have hle2 : q.1 ≤ p.1 := (List.sorted_cons.mp hs2).1 p h1
        have hkeq : p.1 = q.1 := le_antisymm hle1 hle2
        have hmem2 : p.1 ∈ t1.map Prod.fst := by
          rw [hkeq]
          exact List.mem_map.mpr ⟨q, h2, rfl⟩
        exact absurd hmem2 hnd2.1
      subst hpq
      rw [ih t2 hp.cons_inv (List.sorted_cons.mp hs1).2 (List.sorted_cons.mp hs2).2 hnd2.2]

theorem sortPairs_eq_of_perm (l1 l2 : List (String × String)) (hperm : l1.Perm l2)
    (hnd : (l1.map Prod.fst).Nodup) : sortPairs l1 = sortPairs l2 :=
  sorted_keyed_eq _ _
    ((sortPairs_perm l1).trans (hperm.trans (sortPairs_perm l2).symm))
    (sortPairs_sorted l1) (sortPairs_sorted l2)
    (((sortPairs_perm l1).map Prod.fst).nodup_iff.mpr hnd)

theorem fieldStrings_map_fst : ∀ (fs : JFields), (fieldStrings fs).map Prod.fst = fkeys fs
  | .fnil => rfl
  | .fcons k v tl => by
    simp only [fieldStrings, fkeys, List.map_cons, List.cons.injEq]
    exact ⟨trivial, fieldStrings_map_fst tl⟩

theorem fieldStrings_length : ∀ (fs : JFields),
    (fieldStrings fs).length = (fkeys fs).length
  | .fnil => rfl
  | .fcons k v tl => by
    simp only [fieldStrings, fkeys, List.length_cons, fieldStrings_length tl]

theorem mem_fieldStrings : ∀ (fs : JFields), (fkeys fs).Nodup → ∀ k s,
    (k, s) ∈ fieldStrings fs → ∃ v, flookup k fs = some v ∧ stableStringify v = s
  | .fnil => by
    intro _ k s hm
    simp [fieldStrings] at hm
  | .fcons k2 v2 tl => by
    intro hnd k s hm
    rcases List.mem_cons.mp hm with h1 | h1
    · have hk : k = k2 := congrArg Prod.fst h1
      have hs : s = stableStringify v2 := congrArg Prod.snd h1
      refine ⟨v2, ?_, hs.symm⟩
      simp [flookup, hk]
    · have hkin : k ∈ fkeys tl := by
        have hmap : k ∈ (fieldStrings tl).map Prod.fst := List.mem_map.mpr ⟨(k, s), h1, rfl⟩
        rwa [fieldStrings_map_fst tl] at hmap
      have hnd2 := List.nodup_cons.mp (by simpa [fkeys] using hnd)
      have hk2 : ¬(k2 = k) := fun he => hnd2.1 (he ▸ hkin)
      obtain ⟨v, hv, hvs⟩ := mem_fieldStrings tl hnd2.2 k s h1
      exact ⟨v, by simp [flookup, hk2, hv], hvs⟩

theorem flookup_mem_fieldStrings : ∀ (gs : JFields) (k : String) (w : JVal),
    flookup k gs = some w → (k, stableStringify w) ∈ fieldStrings gs
  | .fnil => by
    intro k w h
    simp [flookup] at h
  | .fcons k2 v2 tl => by
    intro k w h
    by_cases hk : k2 = k
    · simp only [flookup, if_pos hk] at h
      injection h with h2
      subst hk
      subst h2
      exact List.mem_cons_self _ _
    · simp only [flookup, if_neg hk] at h
      exact List.mem_cons_of_mem _ (flookup_mem_fieldStrings tl k w h)

theorem jstr_rec : ∀ n : Nat,
    (∀ a b : JVal, sizeOf a ≤ n → jeqv a b = true →
      stableStringify a = stableStringify b) ∧
    (∀ as bs : JList, sizeOf as ≤ n → jeqvL as bs = true →
      stringifyItems as = stringifyItems bs) ∧
    (∀ fs gs : JFields, sizeOf fs ≤ n → jeqvSub fs gs = true →
      ∀ k v, flookup k fs = some v →
        ∃ w, flookup k gs = some w ∧ stableStringify v = stableStringify w) := by
  intro n
  induction n using Nat.strong_induction_on with
  | h n ih =>
    refine ⟨?_, ?_, ?_⟩
    · intro a b hsz h
      cases a with
      | str v =>
        cases b with
        | str w => simp only [jeqv, beq_iff_eq] at h; rw [h]
        | num w => exact absurd h (by simp [jeqv])
        | boolv w => exact absurd h (by simp [jeqv])
        | jnull => exact absurd h (by simp [jeqv])
        | jundef => exact absurd h (by simp [jeqv])
        | arr bs => exact absurd h (by simp [jeqv])
        | obj gs => exact absurd h (by simp [jeqv])
      | num v =>
        cases b with
        | num w => simp only [jeqv, beq_iff_eq] at h; rw [h]
        | str w => exact absurd h (by simp [jeqv])
        | boolv w => exact absurd h (by simp [jeqv])
        | jnull => exact absurd h (by simp [jeqv])
        | jundef => exact absurd h (by simp [jeqv])
        | arr bs => exact absurd h (by simp [jeqv])
        | obj gs => exact absurd h (by simp [jeqv])
      | boolv v =>
        cases b with
        | boolv w => simp only [jeqv, beq_iff_eq] at h; rw [h]
        | str w => exact absurd h (by simp [jeqv])
        | num w => exact absurd h (by simp [jeqv])
        | jnull => exact absurd h (by simp [jeqv])
        | jundef => exact absurd h (by simp [jeqv])
        | arr bs => exact absurd h (by simp [jeqv])
        | obj gs => exact absurd h (by simp [jeqv])
      | jnull =>
        cases b with
        | jnull => rfl
        | str w => exact absurd h (by simp [jeqv])
        | num w => exact absurd h (by simp [jeqv])
        | boolv w => exact absurd h (by simp [jeqv])
        | jundef => exact absurd h (by simp [jeqv])
        | arr bs => exact absurd h (by simp [jeqv])
        | obj gs => exact absurd h (by simp [jeqv])
      | jundef =>
        cases b with
        | jundef => rfl
        | str w => exact absurd h (by simp [jeqv])
        | num w => exact absurd h (by simp [jeqv])
        | boolv w => exact absurd h (by simp [jeqv])
        | jnull => exact absurd h (by simp [jeqv])
        | arr bs => exact absurd h (by simp [jeqv])
        | obj gs => exact absurd h (by simp [jeqv])
      | arr as =>
        cases b with
        | arr bs =>
          have hspec : sizeOf (JVal.arr as) = 1 + sizeOf as := rfl
          have hlt : sizeOf as < n := by omega
          have hl := (ih (sizeOf as) hlt).2.1 as bs le_rfl (by simpa [jeqv] using h)
          simp only [stableStringify]
          rw [hl]
        | str w => exact absurd h (by simp [jeqv])
        | num w => exact absurd h (by simp [jeqv])
        | boolv w => exact absurd h (by simp [jeqv])
        | jnull => exact absurd h (by simp [jeqv])
        | jundef => exact absurd h (by simp [jeqv])
        | obj gs => exact absurd h (by simp [jeqv])
      | obj fs =>
        cases b with
        | obj gs =>
          simp only [jeqv, Bool.and_eq_true, decide_eq_true_eq] at h
          obtain ⟨⟨⟨hlen, hndf⟩, hndg⟩, hsub⟩ := h
          have hspec : sizeOf (JVal.obj fs) = 1 + sizeOf fs := rfl
          have hlt : sizeOf fs < n := by omega
          have subc := (ih (sizeOf fs) hlt).2.2 fs gs le_rfl hsub
          have hsubset : fieldStrings fs ⊆ fieldStrings gs := by
            intro pr hpr
            obtain ⟨k, s⟩ := pr
            obtain ⟨v, hlk, hrv⟩ := mem_fieldStrings fs hndf k s hpr
            obtain ⟨w, hlkg, hvw⟩ := subc k v hlk
            have hpr2 : (k, s) = (k, stableStringify w) := by rw [← hrv, hvw]
            rw [hpr2]
            exact flookup_mem_fieldStrings gs k w hlkg
          have hnd1 : (fieldStrings fs).Nodup := by
            refine List.Nodup.of_map Prod.fst ?_
            rw [fieldStrings_map_fst fs]
            exact hndf
          have hlenp : (fieldStrings gs).length ≤ (fieldStrings fs).length := by
            rw [fieldStrings_length fs, fieldStrings_length gs, hlen]
          have hperm := (List.subperm_of_subset hnd1 hsubset).perm_of_length_le hlenp
          have hsort : sortPairs (fieldStrings fs) = sortPairs (fieldStrings gs) := by
            refine sortPairs_eq_of_perm _ _ hperm ?_
            rw [fieldStrings_map_fst fs]
            exact hndf
          simp only [stableStringify, stringifyObj]
          rw [hsort]
        | str w => exact absurd h (by simp [jeqv])
        | num w => exact absurd h (by simp [jeqv])
        | boolv w => exact absurd h (by simp [jeqv])
        | jnull => exact absurd h (by simp [jeqv])
        | jundef => exact absurd h (by simp [jeqv])
        | arr bs => exact absurd h (by simp [jeqv])
    · intro as bs hsz h
      cases as with
      | jnil =>
        cases bs with
        | jnil => rfl
        | jcons b bs2 => exact absurd h (by simp [jeqvL])
      | jcons a as2 =>
        cases bs with
        | jnil => exact absurd h (by simp [jeqvL])
        | jcons b bs2 =>
          simp only [jeqvL, Bool.and_eq_true] at h
          have hspec : sizeOf (JList.jcons a as2) = 1 + sizeOf a + sizeOf as2 := rfl
          have hlta : sizeOf a < n := by omega
          have hltas : sizeOf as2 < n := by omega
          simp only [stringifyItems]
          rw [(ih (sizeOf a) hlta).1 a b le_rfl h.1,
            (ih (sizeOf as2) hltas).2.1 as2 bs2 le_rfl h.2]
    · intro fs gs hsz h k v hlk
      cases fs with
      | fnil => simp [flookup] at hlk
      | fcons k2 v2 tl =>
        simp only [jeqvSub, Bool.and_eq_true] at h
        obtain ⟨h1, h2⟩ := h
        have hspec : sizeOf (JFields.fcons k2 v2 tl)
            = 1 + sizeOf k2 + sizeOf v2 + sizeOf tl := rfl
        have hltv : sizeOf v2 < n := by omega
        have hltl : sizeOf tl < n := by omega
        by_cases hkk : k2 = k
        · subst hkk
          simp only [flookup, if_pos rfl] at hlk
          injection hlk with hv2
          subst hv2
          cases hwg : flookup k2 gs with
          | none => rw [hwg] at h1; simp at h1
          | some w =>
            rw [hwg] at h1
            simp only [] at h1
            exact ⟨w, rfl, (ih (sizeOf v2) hltv).1 v2 w le_rfl h1⟩
        · simp only [flookup, if_neg hkk] at hlk
          exact (ih (sizeOf tl) hltl).2.2 tl gs le_rfl h2 k v hlk

theorem stringify_of_jeqv (a b : JVal) (h : jeqv a b = true) :
    stableStringify a = stableStringify b :=
  (jstr_rec (sizeOf a)).1 a b le_rfl h

/-- **C9** (amended): two select calls collide in the query cache when
their statement texts have the same sequence of non-whitespace tokens up
to letter case — whitespace runs may differ in kind and length but not
be deleted or inserted inside a token — and their parameter lists are
structurally equivalent up to object-key ordering (with distinct keys)
at every nesting level: the computed cache keys (connection id +
whitespace-collapsed, trimmed, case-folded SQL + stable serialization
with sorted object keys) are then equal.  Statement texts that differ
only by *removing* whitespace (e.g. `a,b` vs `a, b`) produce different
keys, because normalization collapses each whitespace run to a single
space rather than deleting it. -/
theorem C9_cache_key (cid s1 s2 : String) (p1 p2 : JList)
    (htok : (wsTokens s1.data).map (List.map Char.toLower)
      = (wsTokens s2.data).map (List.map Char.toLower))
    (hp : jeqvL p1 p2 = true) :
    makeCacheKey cid s1 p1 = makeCacheKey cid s2 p2 := by
  unfold makeCacheKey
  rw [normalizeSql_tokens s1, normalizeSql_tokens s2, htok,
    stringify_of_jeqv (JVal.arr p1) (JVal.arr p2) (by simpa [jeqv] using hp)]

/-- Counterexample to **C9** as stated: `select a,b from t` and
`select a, b from t` differ only in whitespace (their letter content is
identical character for character once whitespace is removed), yet their
cache keys differ, so the second call misses the entry stored by the
first. -/
theorem C9_counterexample :
    ((("select a,b from t").data.filter (fun c => !isWs c)).map Char.toLower
      = (("select a, b from t").data.filter (fun c => !isWs c)).map Char.toLower) ∧
    makeCacheKey "default" "select a,b from t" JList.jnil
      ≠ makeCacheKey "default" "select a, b from t" JList.jnil :=
  ⟨rfl, by decide⟩

/-- Witness for `C9_cache_key`: same tokens modulo case and an object
parameter with reordered keys. -/
theorem C9_cache_key_witness :
    ((wsTokens ("SELECT  * FROM t").data).map (List.map Char.toLower)
      = (wsTokens ("select * from t").data).map (List.map Char.toLower)) ∧
    makeCacheKey "default" "SELECT  * FROM t"
        (JList.jcons (JVal.obj (JFields.fcons "a" (JVal.num 1)
          (JFields.fcons "b" (JVal.num 2) JFields.fnil))) JList.jnil)
      = makeCacheKey "default" "select * from t"
        (JList.jcons (JVal.obj (JFields.fcons "b" (JVal.num 2)
          (JFields.fcons "a" (JVal.num 1) JFields.fnil))) JList.jnil) :=
  ⟨by decide,
   C9_cache_key "default" "SELECT  * FROM t" "select * from t" _ _ (by decide) (by decide)⟩

end Orm
